import Mathlib

/-!
Verification of the batched top-K recommendation core of
`src/models/model.py` (class `BaseModel`).

The embedding below translates, line by line, the three methods
`_recommend_for_users`, `_recommend_for_movies` and `recommend`.
The opaque scoring collaborator `self.predict` is modelled as a pointwise
function `f : Nat → Nat → PredScore` applied to every (userId, movieId)
pair of the constructed cross-product (the documented collaborator
contract: one score per pair, aligned positionally).

Modelling conventions:
* numpy `uint32` casts (`dtype='uint32'` at model.py:67 and model.py:105)
  are `% 2^32` on `Nat`;
* float64 score values are `PredScore`: a rational for finite values plus
  `posInf`, `negInf` and `nan` (float64 represents every uint32 id
  exactly, so ids stay `Nat`);
* `pandas.DataFrame.dropna` (model.py:77/115) drops exactly the rows
  whose `predicted` entry is NaN (the id columns are never NaN);
* `groupby(..., sort=False)[...].rank(ascending=False, method='first')`
  (model.py:86-88/124-126) assigns, inside each group of rows sharing the
  groupby key, rank `1 + #(rows of the group that are strictly greater,
  or equal and earlier in row order)`;
* the `np.full(..., None, dtype='float64')` sentinel (NaN) is `none`, a
  filled cell is `some _`;
* the Python dict `{u: i for i, u in enumerate(users)}` (model.py:68/106)
  maps a key to the index of its *last* occurrence; a failed lookup
  (`KeyError`) and the other raising paths surface as `Except.error`;
* an empty cross-product makes `np.array(..., dtype='uint32')` 1-D, so
  the `np.hstack` at model.py:75/113 raises `ValueError` before the
  dataframe is built;
* `rec_items is None` after zero loop iterations makes
  `rec_items.shape[0]` raise `AttributeError` (model.py:183); the
  `assert` statements raise `AssertionError`.
-/

set_option linter.unusedVariables false

namespace Touchstore

/-- A float64 `predict` output value: NaN, -inf, a finite value, or +inf. -/
inductive PredScore where
  | nan : PredScore
  | negInf : PredScore
  | fin : ℚ → PredScore
  | posInf : PredScore
deriving DecidableEq, Repr

instance : Inhabited PredScore := ⟨PredScore.nan⟩

/-- `pandas.isna` on a float64 cell: true exactly for NaN. -/
def PredScore.isNaN : PredScore → Bool
  | .nan => true
  | _ => false

/-- IEEE-754 `>` on float64 values: any comparison with NaN is false,
`+inf` is above every other value, `-inf` below. -/
def scoreGT : PredScore → PredScore → Bool
  | .nan, _ => false
  | _, .nan => false
  | .posInf, .posInf => false
  | .posInf, _ => true
  | _, .posInf => false
  | .negInf, _ => false
  | .fin _, .negInf => true
  | .fin a, .fin b => decide (b < a)

/-- IEEE-754 `==` on float64 values: false whenever NaN is involved. -/
def scoreEQ : PredScore → PredScore → Bool
  | .fin a, .fin b => decide (a = b)
  | .posInf, .posInf => true
  | .negInf, .negInf => true
  | _, _ => false

/-- The numpy `uint32` cast applied by `np.array(..., dtype='uint32')`. -/
def toU32 (n : Nat) : Nat := n % 4294967296

/-- One row of the dataframe `df_table` (model.py:76/114): the groupby
key column, the column written into `rec_items`, and `predicted`.
For `_recommend_for_users` the key is `userId` and the item is `movieId`;
for `_recommend_for_movies` the key is `movieId` and the item is
`userId`. -/
structure TRow where
  key : Nat
  item : Nat
  pred : PredScore
deriving DecidableEq, Repr

instance : Inhabited TRow := ⟨⟨0, 0, PredScore.nan⟩⟩

/-- `np.array([[u, m] for m in movies for u in users], dtype='uint32')`
(model.py:67): the pair list handed to `predict`, movie as the outer
loop, both ids cast to uint32. -/
def userMoviePairU (users movies : List Nat) : List (Nat × Nat) :=
  (movies.map (fun m => users.map (fun u => (toU32 u, toU32 m)))).flatten

/-- `np.array([[u, m] for u in users for m in movies], dtype='uint32')`
(model.py:105): user as the outer loop. -/
def userMoviePairM (users movies : List Nat) : List (Nat × Nat) :=
  (users.map (fun u => movies.map (fun m => (toU32 u, toU32 m)))).flatten

/-- `df_table` after `dropna()` in `_recommend_for_users`
(model.py:70-77): score each pair with `predict`, keep the rows whose
score is not NaN.  Key column = `userId`, item column = `movieId`.
This is the value of `df_table` on the non-raising path only: with an
empty pair list the code raises `ValueError` at the `np.hstack`
(model.py:75) before `df_table` is built — that guard lives in
`recommendForUsers`. -/
def dfTableU (f : Nat → Nat → PredScore) (users movies : List Nat) : List TRow :=
  ((userMoviePairU users movies).map (fun p => TRow.mk p.1 p.2 (f p.1 p.2))).filter
    (fun r => !r.pred.isNaN)

/-- `df_table` after `dropna()` in `_recommend_for_movies`
(model.py:108-115).  Key column = `movieId`, item column = `userId`.
As for `dfTableU`, this is `df_table` on the non-raising path; the
empty-pair `ValueError` of the `np.hstack` at model.py:113 is the
guard in `recommendForMovies`. -/
def dfTableM (f : Nat → Nat → PredScore) (users movies : List Nat) : List TRow :=
  ((userMoviePairM users movies).map (fun p => TRow.mk p.2 p.1 (f p.1 p.2))).filter
    (fun r => !r.pred.isNaN)

/-- Total access to the row at position `i` of the table (positions that
do not exist return a NaN-scored dummy row, which never ranks). -/
def rowAt (rows : List TRow) (i : Nat) : TRow :=
  rows.getD i ⟨0, 0, PredScore.nan⟩

/-- Does the row at position `i` of `rows` come strictly before the row
at position `j` in the per-group ranking: same group key and either a
strictly greater score, or an equal score and an earlier position
(`method='first'`). -/
def beatsIdx (rows : List TRow) (i j : Nat) : Bool :=
  (rowAt rows i).key == (rowAt rows j).key &&
    (scoreGT (rowAt rows i).pred (rowAt rows j).pred ||
      (scoreEQ (rowAt rows i).pred (rowAt rows j).pred && decide (i < j)))

/-- Number of rows ranked strictly before row `j` inside its group. -/
def rankCnt (rows : List TRow) (j : Nat) : Nat :=
  ((List.range rows.length).filter (fun i => beatsIdx rows i j)).length

/-- The `rank` column produced by
`groupby(key, sort=False)[predicted].rank(ascending=False, method='first')`
(model.py:86-88 and 124-126). -/
def rankAt (rows : List TRow) (j : Nat) : Nat :=
  1 + rankCnt rows j

/-- The rows surviving `df_table[df_table['rank'] <= maxsize]`
(model.py:89/127), in dataframe order, each with its rank. -/
def rankedKept (rows : List TRow) (msize : Nat) : List (TRow × Nat) :=
  ((List.range rows.length).map (fun j => (rowAt rows j, rankAt rows j))).filter
    (fun rw => rw.2 ≤ msize)

/-- The Python dict `{u: i for i, u in enumerate(keys)}` queried at `c`:
later insertions overwrite earlier ones, so this is the index of the
last occurrence of `c` in `keys`; a missing key is a `KeyError`.
`lastIdxB` is the fold over the first `b` insertions. -/
def lastIdxB (keys : List Nat) (c : Nat) (b : Nat) : Option Nat :=
  (List.range b).foldl (fun acc i => if keys.getD i 0 = c then some i else acc) none

def lastIdx (keys : List Nat) (c : Nat) : Option Nat :=
  lastIdxB keys c keys.length

abbrev MatI := List (List (Option Nat))
abbrev MatS := List (List (Option PredScore))

/-- `mat[i, j] = v` on a dense matrix (out-of-range writes never happen
on the executed paths; `List.set` makes them no-ops). -/
def set2d {α : Type} (m : List (List (Option α))) (i j : Nat) (v : α) :
    List (List (Option α)) :=
  m.set i ((m.getD i []).set j (some v))

/-- Cell read, `none` also outside the matrix bounds. -/
def cellI (m : MatI) (i c : Nat) : Option Nat := (m.getD i []).getD c none

def cellS (m : MatS) (i c : Nat) : Option PredScore := (m.getD i []).getD c none

/-- The write loop `for named_tuple in df_table.itertuples(): ...`
(model.py:91-100 and 129-138): look the key up in the index dict and
write item and score at column `rank - 1`.  A missing key raises
`KeyError`. -/
def applyWrites (keys : List Nat) (ws : List (TRow × Nat)) (its : MatI) (scs : MatS) :
    Except String (MatI × MatS) :=
  match ws with
  | [] => Except.ok (its, scs)
  | rw :: rest =>
    match lastIdx keys rw.1.key with
    | none => Except.error "KeyError"
    | some i =>
      applyWrites keys rest (set2d its i (rw.2 - 1) rw.1.item)
        (set2d scs i (rw.2 - 1) rw.1.pred)

/-- The common tail of `_recommend_for_users` / `_recommend_for_movies`
(model.py:82-102 and 120-140): allocate the two `np.full` sentinel
matrices of shape `(len(keys), msize)`, rank the table, keep
`rank <= msize`, and run the write loop.  (When the table is empty the
guarded ranking block is skipped; here `rankedKept [] _ = []`, so the
result is identically the untouched sentinel matrices.) -/
def topKCore (keys : List Nat) (rows : List TRow) (msize : Nat) :
    Except String (MatI × MatS) :=
  applyWrites keys (rankedKept rows msize)
    (List.replicate keys.length (List.replicate msize none))
    (List.replicate keys.length (List.replicate msize none))

/-- `BaseModel._recommend_for_users(users, movies, ..., maxsize)`
(model.py:66-102).  When the cross-product is empty (empty user batch
or empty movie list), `np.array([...], dtype='uint32')` is a 1-D array
of shape `(0,)` and `np.hstack((user_movie_pair, predicted))` at
model.py:75 mixes it with the 2-D `(0, 1)` predicted column, raising
`ValueError` before `df_table` exists; `dfTableU` models `df_table`
only on the non-raising path.  Otherwise `maxsize=None` defaults to
`len(movies)` (model.py:79-80) and the core runs. -/
def recommendForUsers (f : Nat → Nat → PredScore) (users movies : List Nat)
    (maxsize : Option Nat) : Except String (MatI × MatS) :=
  if userMoviePairU users movies = [] then
    Except.error "ValueError: all the input arrays must have same number of dimensions"
  else
    topKCore users (dfTableU f users movies) (maxsize.getD movies.length)

/-- `BaseModel._recommend_for_movies(movies, users, ..., maxsize)`
(model.py:104-140).  The same empty-cross-product `ValueError` is
raised by the `np.hstack` at model.py:113; otherwise `maxsize=None`
defaults to `len(users)` (model.py:117-118). -/
def recommendForMovies (f : Nat → Nat → PredScore) (movies users : List Nat)
    (maxsize : Option Nat) : Except String (MatI × MatS) :=
  if userMoviePairM users movies = [] then
    Except.error "ValueError: all the input arrays must have same number of dimensions"
  else
    topKCore movies (dfTableM f users movies) (maxsize.getD users.length)

/-- `math.ceil(n / batch_num)` with `batch_num = 100` (model.py:166,172). -/
def numBatches (n : Nat) : Nat := (n + 99) / 100

/-- The batch slice `srcs[start:end]` with `start = i*100`,
`end = min((i+1)*100, len(srcs))` (model.py:173). -/
def sliceL (srcs : List Nat) (i : Nat) : List Nat :=
  (srcs.drop (i * 100)).take (min ((i + 1) * 100) srcs.length - i * 100)

/-- One iteration of the batch loop (model.py:172-181): run the
sub-recommender on the slice, then either initialise the accumulator or
`np.vstack` onto it. -/
def batchStep (sub : List Nat → Except String (MatI × MatS)) (srcs : List Nat)
    (acc : Option (MatI × MatS)) (i : Nat) : Except String (Option (MatI × MatS)) :=
  match sub (sliceL srcs i) with
  | Except.error e => Except.error e
  | Except.ok (si, ss) =>
    match acc with
    | none => Except.ok (some (si, ss))
    | some (ri, rs) => Except.ok (some (ri ++ si, rs ++ ss))

/-- The whole batch loop plus the two `assert`s (model.py:164-202,
either branch).  With zero batches the accumulator is still `None` and
`rec_items.shape[0]` raises `AttributeError`; a row-count mismatch
raises `AssertionError`. -/
def batchDriver (sub : List Nat → Except String (MatI × MatS)) (srcs : List Nat) :
    Except String (MatI × MatS) :=
  match (List.range (numBatches srcs.length)).foldlM (batchStep sub srcs) none with
  | Except.error e => Except.error e
  | Except.ok none => Except.error "AttributeError: NoneType object has no attribute shape"
  | Except.ok (some (ri, rs)) =>
    if ri.length = srcs.length ∧ rs.length = srcs.length then Except.ok (ri, rs)
    else Except.error "AssertionError"

/-- `BaseModel.recommend(recommended_type, users, movies, ..., maxsize)`
(model.py:142-207): dispatch on the direction string, batch over the
source entities, raise `ValueError` for any other direction. -/
def recommend (f : Nat → Nat → PredScore) (recommendedType : String)
    (users movies : List Nat) (maxsize : Option Nat) : Except String (MatI × MatS) :=
  if recommendedType = "movie" then
    batchDriver (fun us => recommendForUsers f us movies maxsize) users
  else if recommendedType = "user" then
    batchDriver (fun mv => recommendForMovies f mv users maxsize) movies
  else
    Except.error "wrong recommended_type"

/-! ### Order algebra for float comparisons -/

theorem scoreGT_irrefl (a : PredScore) : scoreGT a a = false := by
  cases a <;> simp [scoreGT]

theorem scoreGT_nan_left (b : PredScore) : scoreGT PredScore.nan b = false := by
  cases b <;> rfl

theorem scoreGT_nan_right (a : PredScore) : scoreGT a PredScore.nan = false := by
  cases a <;> rfl

theorem scoreEQ_nan_left (b : PredScore) : scoreEQ PredScore.nan b = false := by
  cases b <;> rfl

theorem scoreEQ_nan_right (a : PredScore) : scoreEQ a PredScore.nan = false := by
  cases a <;> rfl

theorem scoreEQ_symm (a b : PredScore) : scoreEQ a b = scoreEQ b a := by
  cases a <;> cases b <;> simp [scoreEQ]
  exact eq_comm

theorem scoreGT_trans {a b c : PredScore} (h1 : scoreGT a b = true)
    (h2 : scoreGT b c = true) : scoreGT a c = true := by
  cases a <;> cases b <;> cases c <;> simp_all [scoreGT]
  exact lt_trans h2 h1

theorem scoreEQ_trans {a b c : PredScore} (h1 : scoreEQ a b = true)
    (h2 : scoreEQ b c = true) : scoreEQ a c = true := by
  cases a <;> cases b <;> cases c <;> simp_all [scoreEQ]

theorem scoreGT_congr_right {a b c : PredScore} (h : scoreEQ a b = true) :
    scoreGT c a = scoreGT c b := by
  cases a <;> cases b <;> cases c <;> simp_all [scoreEQ, scoreGT]

theorem scoreGT_congr_left {a b c : PredScore} (h : scoreEQ a b = true) :
    scoreGT a c = scoreGT b c := by
  cases a <;> cases b <;> cases c <;> simp_all [scoreEQ, scoreGT]

theorem score_tri {a b : PredScore} (ha : a.isNaN = false) (hb : b.isNaN = false) :
    scoreGT a b = true ∨ scoreGT b a = true ∨ scoreEQ a b = true := by
  cases a with
  | nan => simp [PredScore.isNaN] at ha
  | negInf => cases b <;> simp_all [PredScore.isNaN, scoreGT, scoreEQ]
  | posInf => cases b <;> simp_all [PredScore.isNaN, scoreGT, scoreEQ]
  | fin q =>
    cases b with
    | nan => simp [PredScore.isNaN] at hb
    | negInf => simp [scoreGT]
    | posInf => simp [scoreGT]
    | fin r =>
      rcases lt_trichotomy q r with h | h | h
      · exact Or.inr (Or.inl (by simp [scoreGT, h]))
      · exact Or.inr (Or.inr (by simp [scoreEQ, h]))
      · exact Or.inl (by simp [scoreGT, h])

/-! ### The per-group strict ranking order `beatsIdx` -/

theorem beatsIdx_irrefl (rows : List TRow) (j : Nat) : beatsIdx rows j j = false := by
  simp [beatsIdx, scoreGT_irrefl]

theorem rowAt_oob {rows : List TRow} {i : Nat} (h : rows.length ≤ i) :
    rowAt rows i = ⟨0, 0, PredScore.nan⟩ :=
  List.getD_eq_default _ _ h

theorem beatsIdx_lt_left {rows : List TRow} {i j : Nat} (h : beatsIdx rows i j = true) :
    i < rows.length := by
  by_contra hh
  rw [beatsIdx, rowAt_oob (Nat.le_of_not_lt hh)] at h
  simp [scoreGT_nan_left, scoreEQ_nan_left] at h

theorem beatsIdx_lt_right {rows : List TRow} {i j : Nat} (h : beatsIdx rows i j = true) :
    j < rows.length := by
  by_contra hh
  rw [beatsIdx, rowAt_oob (Nat.le_of_not_lt hh)] at h
  simp [scoreGT_nan_right, scoreEQ_nan_right] at h

/-- Unpacked form of `beatsIdx`. -/
theorem beatsIdx_iff {rows : List TRow} {i j : Nat} :
    beatsIdx rows i j = true ↔
      (rowAt rows i).key = (rowAt rows j).key ∧
        (scoreGT (rowAt rows i).pred (rowAt rows j).pred = true ∨
          (scoreEQ (rowAt rows i).pred (rowAt rows j).pred = true ∧ i < j)) := by
  simp [beatsIdx, Bool.and_eq_true, Bool.or_eq_true]

theorem beatsIdx_key {rows : List TRow} {i j : Nat} (h : beatsIdx rows i j = true) :
    (rowAt rows i).key = (rowAt rows j).key :=
  (beatsIdx_iff.mp h).1

theorem beatsIdx_trans {rows : List TRow} {i j k : Nat} (h1 : beatsIdx rows i j = true)
    (h2 : beatsIdx rows j k = true) : beatsIdx rows i k = true := by
  obtain ⟨hk1, hor1⟩ := beatsIdx_iff.mp h1
  obtain ⟨hk2, hor2⟩ := beatsIdx_iff.mp h2
  refine beatsIdx_iff.mpr ⟨hk1.trans hk2, ?_⟩
  rcases hor1 with hgt1 | ⟨heq1, hlt1⟩
  · rcases hor2 with hgt2 | ⟨heq2, hlt2⟩
    · exact Or.inl (scoreGT_trans hgt1 hgt2)
    · exact Or.inl ((scoreGT_congr_right heq2) ▸ hgt1)
  · rcases hor2 with hgt2 | ⟨heq2, hlt2⟩
    · exact Or.inl ((scoreGT_congr_left heq1) ▸ hgt2)
    · exact Or.inr ⟨scoreEQ_trans heq1 heq2, Nat.lt_trans hlt1 hlt2⟩

theorem beatsIdx_connex {rows : List TRow} {i j : Nat}
    (hne : i ≠ j) (hkey : (rowAt rows i).key = (rowAt rows j).key)
    (hni : (rowAt rows i).pred.isNaN = false) (hnj : (rowAt rows j).pred.isNaN = false) :
    beatsIdx rows i j = true ∨ beatsIdx rows j i = true := by
  rcases score_tri hni hnj with hgt | hgt | heq
  · exact Or.inl (by simp [beatsIdx, hkey, hgt])
  · exact Or.inr (by simp [beatsIdx, hkey, hgt])
  · rcases Nat.lt_or_ge i j with hij | hij
    · exact Or.inl (by simp [beatsIdx, hkey, heq, hij])
    · have hij' : j < i := Nat.lt_of_le_of_ne hij (fun h => hne h.symm)
      have heq' : scoreEQ (rowAt rows j).pred (rowAt rows i).pred = true := by
        rw [scoreEQ_symm]; exact heq
      exact Or.inr (by simp [beatsIdx, hkey, heq', hij'])

/-! ### Generic counting lemmas -/

theorem length_filter_mono {α : Type} (l : List α) (p q : α → Bool)
    (hmono : ∀ z ∈ l, p z = true → q z = true) :
    (l.filter p).length ≤ (l.filter q).length := by
  induction l with
  | nil => simp
  | cons a t ih =>
    have ht := ih (fun z hz => hmono z (List.mem_cons_of_mem _ hz))
    by_cases hpa : p a = true
    · have hqa : q a = true := hmono a (List.mem_cons_self _ _) hpa
      rw [List.filter_cons_of_pos hpa, List.filter_cons_of_pos hqa]
      simpa using ht
    · rw [List.filter_cons_of_neg hpa]
      by_cases hqa : q a = true
      · rw [List.filter_cons_of_pos hqa]
        exact Nat.le_succ_of_le ht
      · rw [List.filter_cons_of_neg hqa]
        exact ht

theorem length_filter_lt {α : Type} (l : List α) (p q : α → Bool) (x : α)
    (hx : x ∈ l) (hmono : ∀ z ∈ l, p z = true → q z = true)
    (hpx : p x = false) (hqx : q x = true) :
    (l.filter p).length < (l.filter q).length := by
  induction l with
  | nil => cases hx
  | cons a t ih =>
    have hmt : ∀ z ∈ t, p z = true → q z = true :=
      fun z hz => hmono z (List.mem_cons_of_mem _ hz)
    rcases List.mem_cons.mp hx with rfl | hxt
    · rw [List.filter_cons_of_neg (by simp [hpx]), List.filter_cons_of_pos hqx]
      exact Nat.lt_succ_of_le (length_filter_mono t p q hmt)
    · have hlt := ih hxt hmt
      by_cases hpa : p a = true
      · have hqa : q a = true := hmono a (List.mem_cons_self _ _) hpa
        rw [List.filter_cons_of_pos hpa, List.filter_cons_of_pos hqa]
        simpa using hlt
      · rw [List.filter_cons_of_neg hpa]
        by_cases hqa : q a = true
        · rw [List.filter_cons_of_pos hqa]
          exact Nat.lt_succ_of_lt hlt
        · rw [List.filter_cons_of_neg hqa]
          exact hlt

theorem length_filter_succ (l : List Nat) (hnd : l.Nodup) (p q : Nat → Bool) (m : Nat)
    (hm : m ∈ l) (hpm : p m = true)
    (hq : ∀ z, q z = (p z && !(z == m))) :
    (l.filter q).length + 1 = (l.filter p).length := by
  induction l with
  | nil => cases hm
  | cons a t ih =>
    have hndt : t.Nodup := (List.nodup_cons.mp hnd).2
    rcases List.mem_cons.mp hm with rfl | hmt
    · have hmnotint : m ∉ t := (List.nodup_cons.mp hnd).1
      have hfeq : t.filter q = t.filter p := by
        apply List.filter_congr
        intro z hz
        have hzm : z ≠ m := fun h => hmnotint (h ▸ hz)
        rw [hq]
        simp [hzm]
      have hqm : ¬ (q m = true) := by rw [hq]; simp
      rw [List.filter_cons_of_pos hpm, List.filter_cons_of_neg hqm, hfeq, List.length_cons]
    · have hane : a ≠ m := by
        rintro rfl
        exact (List.nodup_cons.mp hnd).1 hmt
      have hih := ih hndt hmt
      by_cases hpa : p a = true
      · have hka : q a = true := by rw [hq]; simp [hpa, hane]
        rw [List.filter_cons_of_pos hpa, List.filter_cons_of_pos hka, List.length_cons,
          List.length_cons]
        omega
      · have hfa : ¬ (q a = true) := by rw [hq]; simp [hpa]
        rw [List.filter_cons_of_neg hpa, List.filter_cons_of_neg hfa]
        exact hih

theorem exists_worst (R : Nat → Nat → Bool) :
    ∀ (t : List Nat), t ≠ [] →
    (∀ x ∈ t, ∀ y ∈ t, x ≠ y → R x y = true ∨ R y x = true) →
    (∀ x ∈ t, ∀ y ∈ t, ∀ z ∈ t, R x y = true → R y z = true → R x z = true) →
    ∃ m ∈ t, ∀ z ∈ t, z ≠ m → R z m = true := by
  intro t
  induction t with
  | nil => intro hne; exact absurd rfl hne
  | cons a s ih =>
    intro _ hconn htrans
    by_cases hs : s = []
    · subst hs
      refine ⟨a, List.mem_cons_self _ _, ?_⟩
      intro z hz hzne
      rcases List.mem_cons.mp hz with rfl | h
      · exact absurd rfl hzne
      · cases h
    · have hconns : ∀ x ∈ s, ∀ y ∈ s, x ≠ y → R x y = true ∨ R y x = true :=
        fun x hx y hy => hconn x (List.mem_cons_of_mem _ hx) y (List.mem_cons_of_mem _ hy)
      have htranss : ∀ x ∈ s, ∀ y ∈ s, ∀ z ∈ s, R x y = true → R y z = true → R x z = true :=
        fun x hx y hy z hz => htrans x (List.mem_cons_of_mem _ hx) y
          (List.mem_cons_of_mem _ hy) z (List.mem_cons_of_mem _ hz)
      obtain ⟨m, hms, hworst⟩ := ih hs hconns htranss
      by_cases hra : R a m = true
      · refine ⟨m, List.mem_cons_of_mem _ hms, ?_⟩
        intro z hz hzne
        rcases List.mem_cons.mp hz with rfl | hzs
        · exact hra
        · exact hworst z hzs hzne
      · by_cases ham : a = m
        · subst ham
          refine ⟨a, List.mem_cons_self _ _, ?_⟩
          intro z hz hzne
          rcases List.mem_cons.mp hz with rfl | hzs
          · exact absurd rfl hzne
          · exact hworst z hzs hzne
        · have hma : R m a = true := by
            rcases hconn a (List.mem_cons_self _ _) m (List.mem_cons_of_mem _ hms) ham with
              h | h
            · exact absurd h hra
            · exact h
          refine ⟨a, List.mem_cons_self _ _, ?_⟩
          intro z hz hzne
          rcases List.mem_cons.mp hz with rfl | hzs
          · exact absurd rfl hzne
          · by_cases hzm : z = m
            · exact hzm ▸ hma
            · exact htrans z (List.mem_cons_of_mem _ hzs) m (List.mem_cons_of_mem _ hms) a
                (List.mem_cons_self _ _) (hworst z hzs hzm) hma

/-! ### Properties of the rank column -/

theorem rowAt_mem {rows : List TRow} {i : Nat} (h : i < rows.length) :
    rowAt rows i ∈ rows := by
  rw [rowAt, List.getD_eq_getElem _ _ h]
  exact List.getElem_mem h

theorem rankCnt_lt {rows : List TRow} {i j : Nat} (h : beatsIdx rows i j = true) :
    rankCnt rows i < rankCnt rows j := by
  rw [rankCnt, rankCnt]
  exact length_filter_lt (List.range rows.length) _ _ i
    (List.mem_range.mpr (beatsIdx_lt_left h))
    (fun z _ hz => beatsIdx_trans hz h)
    (beatsIdx_irrefl rows i) h

/-- Inside a group, a rank `c+2` is always preceded by a rank `c+1`:
the worst of the rows beating `j` has exactly `c` rows beating it. -/
theorem rankCnt_pred {rows : List TRow} {j c : Nat}
    (hnn : ∀ r ∈ rows, r.pred.isNaN = false)
    (h : rankCnt rows j = c + 1) :
    ∃ m, beatsIdx rows m j = true ∧ rankCnt rows m = c := by
  set t := (List.range rows.length).filter (fun i => beatsIdx rows i j) with ht
  have htlen : t.length = c + 1 := h
  have htne : t ≠ [] := by
    intro hnil
    rw [hnil] at htlen
    simp at htlen
  have hmemB : ∀ z ∈ t, beatsIdx rows z j = true := by
    intro z hz
    exact (List.mem_filter.mp hz).2
  have hzlt : ∀ z ∈ t, z < rows.length := fun z hz => beatsIdx_lt_left (hmemB z hz)
  have hkeyz : ∀ z ∈ t, (rowAt rows z).key = (rowAt rows j).key :=
    fun z hz => beatsIdx_key (hmemB z hz)
  have hnnz : ∀ z ∈ t, (rowAt rows z).pred.isNaN = false :=
    fun z hz => hnn _ (rowAt_mem (hzlt z hz))
  have hconn : ∀ x ∈ t, ∀ y ∈ t, x ≠ y →
      beatsIdx rows x y = true ∨ beatsIdx rows y x = true := by
    intro x hx y hy hne
    exact beatsIdx_connex hne ((hkeyz x hx).trans (hkeyz y hy).symm) (hnnz x hx) (hnnz y hy)
  have htr : ∀ x ∈ t, ∀ y ∈ t, ∀ z ∈ t, beatsIdx rows x y = true →
      beatsIdx rows y z = true → beatsIdx rows x z = true :=
    fun x _ y _ z _ h1 h2 => beatsIdx_trans h1 h2
  obtain ⟨m, hmt, hworst⟩ := exists_worst (fun x y => beatsIdx rows x y) t htne hconn htr
  have hBmj : beatsIdx rows m j = true := hmemB m hmt
  refine ⟨m, hBmj, ?_⟩
  have hpoint : ∀ z ∈ List.range rows.length,
      beatsIdx rows z m = (beatsIdx rows z j && !(z == m)) := by
    intro z hz
    by_cases hzm : beatsIdx rows z m = true
    · have hzj : beatsIdx rows z j = true := beatsIdx_trans hzm hBmj
      have hzne : z ≠ m := by
        intro he
        rw [he, beatsIdx_irrefl] at hzm
        cases hzm
      simp [hzm, hzj, hzne]
    · have hzmb : beatsIdx rows z m = false := Bool.eq_false_iff.mpr hzm
      rw [hzmb]
      by_cases hzj : beatsIdx rows z j = true
      · have hzt : z ∈ t := List.mem_filter.mpr ⟨hz, hzj⟩
        by_cases hzm2 : z = m
        · simp [hzj, hzm2]
        · exact absurd (hworst z hzt hzm2) hzm
      · simp [Bool.eq_false_iff.mpr hzj]
  have hfeq : (List.range rows.length).filter (fun i => beatsIdx rows i m)
      = (List.range rows.length).filter (fun z => beatsIdx rows z j && !(z == m)) :=
    List.filter_congr hpoint
  have hsucc := length_filter_succ (List.range rows.length) (List.nodup_range _)
    (fun i => beatsIdx rows i j) (fun z => beatsIdx rows z j && !(z == m)) m
    (List.mem_range.mpr (beatsIdx_lt_left hBmj)) hBmj (fun z => rfl)
  have hcnt : rankCnt rows j = c + 1 := h
  rw [rankCnt] at hcnt ⊢
  rw [hfeq]
  omega

/-- Every rank value below an occupied one is occupied inside the same
group. -/
theorem rankCnt_reach {rows : List TRow}
    (hnn : ∀ r ∈ rows, r.pred.isNaN = false) :
    ∀ c j, rankCnt rows j = c → ∀ d, d ≤ c →
      ∃ y, rankCnt rows y = d ∧ (y = j ∨ beatsIdx rows y j = true) := by
  intro c
  induction c with
  | zero =>
    intro j h d hd
    have hd0 : d = 0 := Nat.le_zero.mp hd
    exact ⟨j, hd0 ▸ h, Or.inl rfl⟩
  | succ c ih =>
    intro j h d hd
    by_cases hdc : d = c + 1
    · exact ⟨j, hdc ▸ h, Or.inl rfl⟩
    · have hd' : d ≤ c := by omega
      obtain ⟨m, hBmj, hcm⟩ := rankCnt_pred hnn h
      obtain ⟨y, hy, hyor⟩ := ih m hcm d hd'
      refine ⟨y, hy, Or.inr ?_⟩
      rcases hyor with rfl | hB
      · exact hBmj
      · exact beatsIdx_trans hB hBmj

/-! ### The index dictionary `lastIdx` -/

theorem lastIdxB_succ (keys : List Nat) (c b : Nat) :
    lastIdxB keys c (b + 1) =
      if keys.getD b 0 = c then some b else lastIdxB keys c b := by
  rw [lastIdxB, lastIdxB, List.range_succ, List.foldl_append]
  rfl

theorem lastIdxB_some_spec {keys : List Nat} {c b i : Nat}
    (h : lastIdxB keys c b = some i) :
    i < b ∧ keys.getD i 0 = c ∧ ∀ j, i < j → j < b → keys.getD j 0 ≠ c := by
  induction b with
  | zero => cases h
  | succ b ih =>
    rw [lastIdxB_succ] at h
    by_cases hb : keys.getD b 0 = c
    · rw [if_pos hb] at h
      obtain rfl : b = i := by cases h; rfl
      exact ⟨Nat.lt_succ_self _, hb, fun j h1 h2 => by omega⟩
    · rw [if_neg hb] at h
      obtain ⟨h1, h2, h3⟩ := ih h
      refine ⟨Nat.lt_succ_of_lt h1, h2, ?_⟩
      intro j hj1 hj2
      by_cases hjb : j = b
      · exact hjb ▸ hb
      · exact h3 j hj1 (by omega)

theorem lastIdxB_isSome_of_hit {keys : List Nat} {c b i : Nat}
    (hi : i < b) (hc : keys.getD i 0 = c) :
    ∃ k, lastIdxB keys c b = some k := by
  induction b with
  | zero => omega
  | succ b ih =>
    rw [lastIdxB_succ]
    by_cases hb : keys.getD b 0 = c
    · exact ⟨b, if_pos hb ▸ rfl⟩
    · have hib : i < b := by
        rcases Nat.lt_succ_iff_lt_or_eq.mp hi with h | h
        · exact h
        · exact absurd (h ▸ hc) hb
      obtain ⟨k, hk⟩ := ih hib
      exact ⟨k, by rw [if_neg hb]; exact hk⟩

theorem lastIdx_some_spec {keys : List Nat} {c i : Nat}
    (h : lastIdx keys c = some i) :
    i < keys.length ∧ keys.getD i 0 = c ∧
      ∀ j, i < j → j < keys.length → keys.getD j 0 ≠ c :=
  lastIdxB_some_spec h

theorem lastIdx_isSome_of_mem {keys : List Nat} {c : Nat} (h : c ∈ keys) :
    ∃ k, lastIdx keys c = some k := by
  obtain ⟨i, hi, hget⟩ := List.getElem_of_mem h
  exact lastIdxB_isSome_of_hit hi (by rw [List.getD_eq_getElem _ _ hi, hget])

/-! ### Matrix updates -/

theorem set2d_length {α : Type} (m : List (List (Option α))) (i j : Nat) (v : α) :
    (set2d m i j v).length = m.length :=
  List.length_set m i _

theorem set2d_row_other {α : Type} (m : List (List (Option α))) (i j : Nat) (v : α)
    (k : Nat) (hk : k ≠ i) :
    (set2d m i j v).getD k [] = m.getD k [] := by
  rw [set2d]
  simp only [List.getD_eq_getElem?_getD]
  rw [List.getElem?_set_ne (Ne.symm hk)]

theorem set2d_row_self {α : Type} (m : List (List (Option α))) {i : Nat} (j : Nat)
    (v : α) (hi : i < m.length) :
    (set2d m i j v).getD i [] = (m.getD i []).set j (some v) := by
  rw [set2d]
  simp only [List.getD_eq_getElem?_getD]
  rw [List.getElem?_set_self hi]
  rfl

theorem set2d_row_length {α : Type} (m : List (List (Option α))) (i j : Nat) (v : α)
    (k : Nat) :
    ((set2d m i j v).getD k []).length = (m.getD k []).length := by
  by_cases hk : k = i
  · subst hk
    by_cases hi : k < m.length
    · rw [set2d_row_self _ _ _ hi, List.length_set]
    · rw [set2d, List.set_eq_of_length_le (Nat.le_of_not_lt hi)]
  · rw [set2d_row_other _ _ _ _ _ hk]

theorem set2d_cell_self {α : Type} (m : List (List (Option α))) {i j : Nat} (v : α)
    (hi : i < m.length) (hj : j < (m.getD i []).length) :
    ((set2d m i j v).getD i []).getD j none = some v := by
  rw [set2d_row_self _ _ _ hi]
  simp only [List.getD_eq_getElem?_getD]
  rw [List.getElem?_set_self (by simpa using hj)]
  rfl

theorem set2d_cell_other {α : Type} (m : List (List (Option α))) (i j : Nat) (v : α)
    (k c : Nat) (h : ¬(k = i ∧ c = j)) :
    ((set2d m i j v).getD k []).getD c none = (m.getD k []).getD c none := by
  by_cases hk : k = i
  · subst hk
    have hc : c ≠ j := fun hc => h ⟨rfl, hc⟩
    by_cases hi : k < m.length
    · rw [set2d_row_self _ _ _ hi]
      simp only [List.getD_eq_getElem?_getD]
      rw [List.getElem?_set_ne (Ne.symm hc)]
    · rw [set2d, List.set_eq_of_length_le (Nat.le_of_not_lt hi)]
  · rw [set2d_row_other _ _ _ _ _ hk]

/-! ### The write loop -/

/-- The write produced by the kept row `rw` lands in cell `(i, c)`. -/
def targetsAt (keys : List Nat) (rw : TRow × Nat) (i c : Nat) : Prop :=
  lastIdx keys rw.1.key = some i ∧ rw.2 - 1 = c

theorem applyWrites_ok {keys : List Nat} {ws : List (TRow × Nat)} {its : MatI} {scs : MatS}
    (h : ∀ rw ∈ ws, ∃ i, lastIdx keys rw.1.key = some i) :
    ∃ r, applyWrites keys ws its scs = Except.ok r := by
  induction ws generalizing its scs with
  | nil => exact ⟨(its, scs), rfl⟩
  | cons rw rest ih =>
    obtain ⟨i, hi⟩ := h rw (List.mem_cons_self _ _)
    simp only [applyWrites, hi]
    exact ih (fun w hw => h w (List.mem_cons_of_mem _ hw))

theorem applyWrites_shape {keys : List Nat} {ws : List (TRow × Nat)}
    {its : MatI} {scs : MatS} {its' : MatI} {scs' : MatS}
    (h : applyWrites keys ws its scs = Except.ok (its', scs')) :
    its'.length = its.length ∧ scs'.length = scs.length ∧
      (∀ k, (its'.getD k []).length = (its.getD k []).length) ∧
      (∀ k, (scs'.getD k []).length = (scs.getD k []).length) := by
  induction ws generalizing its scs with
  | nil =>
    simp only [applyWrites, Except.ok.injEq, Prod.mk.injEq] at h
    obtain ⟨rfl, rfl⟩ := h
    exact ⟨rfl, rfl, fun k => rfl, fun k => rfl⟩
  | cons rw rest ih =>
    simp only [applyWrites] at h
    cases hl : lastIdx keys rw.1.key with
    | none => rw [hl] at h; cases h
    | some i =>
      rw [hl] at h
      obtain ⟨h1, h2, h3, h4⟩ := ih h
      refine ⟨?_, ?_, ?_, ?_⟩
      · rw [h1, set2d_length]
      · rw [h2, set2d_length]
      · intro k
        rw [h3 k, set2d_row_length]
      · intro k
        rw [h4 k, set2d_row_length]

theorem applyWrites_cell_untouched {keys : List Nat} {ws : List (TRow × Nat)}
    {its : MatI} {scs : MatS} {its' : MatI} {scs' : MatS} {i c : Nat}
    (h : applyWrites keys ws its scs = Except.ok (its', scs'))
    (hnt : ∀ rw ∈ ws, ¬ targetsAt keys rw i c) :
    (its'.getD i []).getD c none = (its.getD i []).getD c none ∧
      (scs'.getD i []).getD c none = (scs.getD i []).getD c none := by
  induction ws generalizing its scs with
  | nil =>
    simp only [applyWrites, Except.ok.injEq, Prod.mk.injEq] at h
    obtain ⟨rfl, rfl⟩ := h
    exact ⟨rfl, rfl⟩
  | cons rw rest ih =>
    simp only [applyWrites] at h
    cases hl : lastIdx keys rw.1.key with
    | none => rw [hl] at h; cases h
    | some i0 =>
      rw [hl] at h
      have hcell : ¬(i = i0 ∧ c = rw.2 - 1) := by
        rintro ⟨rfl, rfl⟩
        exact hnt rw (List.mem_cons_self _ _) ⟨hl, rfl⟩
      obtain ⟨h1, h2⟩ := ih h (fun w hw => hnt w (List.mem_cons_of_mem _ hw))
      rw [h1, h2, set2d_cell_other _ _ _ _ _ _ hcell, set2d_cell_other _ _ _ _ _ _ hcell]
      exact ⟨rfl, rfl⟩

theorem applyWrites_cell_keep {keys : List Nat} {ws : List (TRow × Nat)}
    {its : MatI} {scs : MatS} {its' : MatI} {scs' : MatS} {i c : Nat} {a : Nat}
    {b : PredScore}
    (h : applyWrites keys ws its scs = Except.ok (its', scs'))
    (hia : (its.getD i []).getD c none = some a)
    (hib : (scs.getD i []).getD c none = some b)
    (hv : ∀ rw ∈ ws, targetsAt keys rw i c → rw.1.item = a ∧ rw.1.pred = b) :
    (its'.getD i []).getD c none = some a ∧
      (scs'.getD i []).getD c none = some b := by
  induction ws generalizing its scs with
  | nil =>
    simp only [applyWrites, Except.ok.injEq, Prod.mk.injEq] at h
    obtain ⟨rfl, rfl⟩ := h
    exact ⟨hia, hib⟩
  | cons rw rest ih =>
    simp only [applyWrites] at h
    cases hl : lastIdx keys rw.1.key with
    | none => rw [hl] at h; cases h
    | some i0 =>
      rw [hl] at h
      by_cases htgt : i = i0 ∧ c = rw.2 - 1
      · obtain ⟨rfl, rfl⟩ := htgt
        obtain ⟨hva, hvb⟩ := hv rw (List.mem_cons_self _ _) ⟨hl, rfl⟩
        have hilen : i < its.length := by
          by_contra hno
          rw [List.getD_eq_default _ _ (Nat.le_of_not_lt hno)] at hia
          cases hia
        have hclen : rw.2 - 1 < (its.getD i []).length := by
          by_contra hno
          rw [List.getD_eq_default _ _ (Nat.le_of_not_lt hno)] at hia
          cases hia
        have hilen2 : i < scs.length := by
          by_contra hno
          rw [List.getD_eq_default _ _ (Nat.le_of_not_lt hno)] at hib
          cases hib
        have hclen2 : rw.2 - 1 < (scs.getD i []).length := by
          by_contra hno
          rw [List.getD_eq_default _ _ (Nat.le_of_not_lt hno)] at hib
          cases hib
        have hca : ((set2d its i (rw.2 - 1) rw.1.item).getD i []).getD (rw.2 - 1) none
            = some a := by
          rw [set2d_cell_self its rw.1.item hilen hclen, hva]
        have hcb : ((set2d scs i (rw.2 - 1) rw.1.pred).getD i []).getD (rw.2 - 1) none
            = some b := by
          rw [set2d_cell_self scs rw.1.pred hilen2 hclen2, hvb]
        exact ih h hca hcb (fun w hw => hv w (List.mem_cons_of_mem _ hw))
      · have h1 := set2d_cell_other its i0 (rw.2 - 1) rw.1.item i c htgt
        have h2 := set2d_cell_other scs i0 (rw.2 - 1) rw.1.pred i c htgt
        exact ih h (h1.trans hia) (h2.trans hib)
          (fun w hw => hv w (List.mem_cons_of_mem _ hw))

/-- A write outside the allocated bounds changes nothing (never happens
on the executed paths). -/
theorem set2d_oob {α : Type} (m : List (List (Option α))) {i j : Nat} (v : α)
    (h : ¬(i < m.length ∧ j < (m.getD i []).length)) :
    set2d m i j v = m := by
  rw [set2d]
  by_cases hi : i < m.length
  · have hj : (m.getD i []).length ≤ j := by
      rcases Nat.lt_or_ge j (m.getD i []).length with hlt | hge
      · exact absurd ⟨hi, hlt⟩ h
      · exact hge
    rw [List.set_eq_of_length_le hj]
    apply List.ext_getElem?
    intro k
    by_cases hk : k = i
    · subst hk
      rw [List.getElem?_set_self hi, List.getElem?_eq_getElem hi,
        List.getD_eq_getElem _ _ hi]
    · rw [List.getElem?_set_ne (fun he => hk he.symm)]
  · rw [List.set_eq_of_length_le (Nat.le_of_not_lt hi)]

theorem applyWrites_cell_write {keys : List Nat} {i c : Nat} {rw0 : TRow × Nat}
    {ws : List (TRow × Nat)} {its : MatI} {scs : MatS} {its' : MatI} {scs' : MatS}
    (h : applyWrites keys ws its scs = Except.ok (its', scs'))
    (hmem : rw0 ∈ ws) (htgt : targetsAt keys rw0 i c)
    (huniq : ∀ rw ∈ ws, targetsAt keys rw i c → rw = rw0)
    (hb1 : i < its.length) (hb2 : c < (its.getD i []).length)
    (hb3 : i < scs.length) (hb4 : c < (scs.getD i []).length) :
    (its'.getD i []).getD c none = some rw0.1.item ∧
      (scs'.getD i []).getD c none = some rw0.1.pred := by
  induction ws generalizing its scs with
  | nil => cases hmem
  | cons rw rest ih =>
    simp only [applyWrites] at h
    cases hl : lastIdx keys rw.1.key with
    | none => rw [hl] at h; cases h
    | some i0 =>
      rw [hl] at h
      by_cases htw : i0 = i ∧ rw.2 - 1 = c
      · obtain ⟨rfl, rfl⟩ := htw
        have htgtrw : targetsAt keys rw i0 (rw.2 - 1) := ⟨hl, rfl⟩
        have hrw : rw = rw0 := huniq rw (List.mem_cons_self _ _) htgtrw
        have hca : ((set2d its i0 (rw.2 - 1) rw.1.item).getD i0 []).getD (rw.2 - 1) none
            = some rw0.1.item := by
          rw [set2d_cell_self its rw.1.item hb1 hb2, hrw]
        have hcb : ((set2d scs i0 (rw.2 - 1) rw.1.pred).getD i0 []).getD (rw.2 - 1) none
            = some rw0.1.pred := by
          rw [set2d_cell_self scs rw.1.pred hb3 hb4, hrw]
        exact applyWrites_cell_keep h hca hcb
          (fun w hw htw2 => by rw [huniq w (List.mem_cons_of_mem _ hw) htw2]; exact ⟨rfl, rfl⟩)
      · have hne : rw ≠ rw0 := by
          intro he
          apply htw
          rcases htgt with ⟨ht1, ht2⟩
          rw [he] at hl
          exact ⟨Option.some.inj (hl.symm.trans ht1), by rw [he]; exact ht2⟩
        have hmem' : rw0 ∈ rest := by
          rcases List.mem_cons.mp hmem with he | hm
          · exact absurd he.symm hne
          · exact hm
        have hcell : ¬(i = i0 ∧ c = rw.2 - 1) := fun hx => htw ⟨hx.1.symm, hx.2.symm⟩
        have hb1' : i < (set2d its i0 (rw.2 - 1) rw.1.item).length := by
          rw [set2d_length]; exact hb1
        have hb2' : c < ((set2d its i0 (rw.2 - 1) rw.1.item).getD i []).length := by
          rw [set2d_row_length]; exact hb2
        have hb3' : i < (set2d scs i0 (rw.2 - 1) rw.1.pred).length := by
          rw [set2d_length]; exact hb3
        have hb4' : c < ((set2d scs i0 (rw.2 - 1) rw.1.pred).getD i []).length := by
          rw [set2d_row_length]; exact hb4
        exact ih h hmem' (fun w hw ht => huniq w (List.mem_cons_of_mem _ hw) ht)
          hb1' hb2' hb3' hb4'

theorem applyWrites_cell_src {keys : List Nat} {ws : List (TRow × Nat)}
    {its : MatI} {scs : MatS} {its' : MatI} {scs' : MatS} {i c : Nat}
    (h : applyWrites keys ws its scs = Except.ok (its', scs'))
    (hsh1 : its.length = scs.length)
    (hsh2 : ∀ k, (its.getD k []).length = (scs.getD k []).length) :
    ((its'.getD i []).getD c none = (its.getD i []).getD c none ∧
      (scs'.getD i []).getD c none = (scs.getD i []).getD c none) ∨
    ∃ rw ∈ ws, targetsAt keys rw i c ∧
      (its'.getD i []).getD c none = some rw.1.item ∧
      (scs'.getD i []).getD c none = some rw.1.pred := by
  induction ws generalizing its scs with
  | nil =>
    simp only [applyWrites, Except.ok.injEq, Prod.mk.injEq] at h
    obtain ⟨rfl, rfl⟩ := h
    exact Or.inl ⟨rfl, rfl⟩
  | cons rw rest ih =>
    simp only [applyWrites] at h
    cases hl : lastIdx keys rw.1.key with
    | none => rw [hl] at h; cases h
    | some i0 =>
      rw [hl] at h
      have hsh1' : (set2d its i0 (rw.2 - 1) rw.1.item).length
          = (set2d scs i0 (rw.2 - 1) rw.1.pred).length := by
        rw [set2d_length, set2d_length]; exact hsh1
      have hsh2' : ∀ k, ((set2d its i0 (rw.2 - 1) rw.1.item).getD k []).length
          = ((set2d scs i0 (rw.2 - 1) rw.1.pred).getD k []).length := by
        intro k
        rw [set2d_row_length, set2d_row_length]; exact hsh2 k
      rcases ih h hsh1' hsh2' with ⟨h1, h2⟩ | ⟨w, hw, ht, hv1, hv2⟩
      · by_cases htw : i = i0 ∧ c = rw.2 - 1
        · obtain ⟨rfl, rfl⟩ := htw
          by_cases hin : i < its.length ∧ rw.2 - 1 < (its.getD i []).length
          · right
            refine ⟨rw, List.mem_cons_self _ _, ⟨hl, rfl⟩, ?_, ?_⟩
            · rw [h1, set2d_cell_self its rw.1.item hin.1 hin.2]
            · rw [h2, set2d_cell_self scs rw.1.pred (hsh1 ▸ hin.1) (hsh2 i ▸ hin.2)]
          · left
            have hin2 : ¬(i < scs.length ∧ rw.2 - 1 < (scs.getD i []).length) := by
              rw [← hsh1, ← hsh2 i]; exact hin
            rw [h1, h2, set2d_oob its rw.1.item hin, set2d_oob scs rw.1.pred hin2]
            exact ⟨rfl, rfl⟩
        · left
          have hcell : ¬(i = i0 ∧ c = rw.2 - 1) := htw
          rw [h1, h2, set2d_cell_other _ _ _ _ _ _ hcell, set2d_cell_other _ _ _ _ _ _ hcell]
          exact ⟨rfl, rfl⟩
      · exact Or.inr ⟨w, List.mem_cons_of_mem _ hw, ht, hv1, hv2⟩

/-! ### The kept rows -/

theorem rankedKept_mem {rows : List TRow} {msize : Nat} {rw : TRow × Nat}
    (h : rw ∈ rankedKept rows msize) :
    ∃ j, j < rows.length ∧ rw = (rowAt rows j, rankAt rows j) ∧ rankAt rows j ≤ msize := by
  rw [rankedKept] at h
  obtain ⟨hmem, hle⟩ := List.mem_filter.mp h
  obtain ⟨j, hj, hrw⟩ := List.mem_map.mp hmem
  refine ⟨j, List.mem_range.mp hj, hrw.symm, ?_⟩
  have : rw.2 ≤ msize := of_decide_eq_true hle
  rw [← hrw] at this
  exact this

theorem rankedKept_mem_of {rows : List TRow} {msize j : Nat}
    (hj : j < rows.length) (hle : rankAt rows j ≤ msize) :
    (rowAt rows j, rankAt rows j) ∈ rankedKept rows msize := by
  rw [rankedKept]
  refine List.mem_filter.mpr ⟨?_, ?_⟩
  · exact List.mem_map.mpr ⟨j, List.mem_range.mpr hj, rfl⟩
  · exact decide_eq_true hle

/-- Two kept rows writing to the same cell are the same row: the row
index is a function of the group key, and ranks inside a group are
pairwise distinct. -/
theorem kept_target_unique {keys : List Nat} {rows : List TRow} {msize i c : Nat}
    (hnn : ∀ r ∈ rows, r.pred.isNaN = false)
    {rw rw' : TRow × Nat}
    (hm : rw ∈ rankedKept rows msize) (hm' : rw' ∈ rankedKept rows msize)
    (ht : targetsAt keys rw i c) (ht' : targetsAt keys rw' i c) :
    rw = rw' := by
  obtain ⟨j, hj, rfl, hjle⟩ := rankedKept_mem hm
  obtain ⟨j', hj', rfl, hjle'⟩ := rankedKept_mem hm'
  by_cases hjj : j = j'
  · rw [hjj]
  · exfalso
    obtain ⟨hti, htc⟩ := ht
    obtain ⟨hti', htc'⟩ := ht'
    have hkey : (rowAt rows j).key = (rowAt rows j').key := by
      obtain ⟨_, hg, _⟩ := lastIdx_some_spec hti
      obtain ⟨_, hg', _⟩ := lastIdx_some_spec hti'
      rw [← hg, ← hg']
    have hrank : rankCnt rows j = rankCnt rows j' := by
      have e1 : rankAt rows j - 1 = c := htc
      have e2 : rankAt rows j' - 1 = c := htc'
      rw [rankAt] at e1 e2
      omega
    have hnnj : (rowAt rows j).pred.isNaN = false := hnn _ (rowAt_mem hj)
    have hnnj' : (rowAt rows j').pred.isNaN = false := hnn _ (rowAt_mem hj')
    rcases beatsIdx_connex hjj hkey hnnj hnnj' with hb | hb
    · exact absurd hrank (Nat.ne_of_lt (rankCnt_lt hb))
    · exact absurd hrank.symm (Nat.ne_of_lt (rankCnt_lt hb))

/-! ### The top-K core -/

theorem replicate_getD_length {α : Type} (n m k : Nat) :
    ((List.replicate n (List.replicate m (none : Option α))).getD k []).length
      = if k < n then m else 0 := by
  by_cases hk : k < n
  · rw [List.getD_eq_getElem _ _ (by simpa using hk), List.getElem_replicate]
    simp [hk]
  · rw [List.getD_eq_default _ _ (by simpa using Nat.le_of_not_lt hk)]
    simp [hk]

theorem replicate_row_getD {α : Type} (n m i : Nat) :
    (List.replicate n (List.replicate m (none : Option α))).getD i []
      = if i < n then List.replicate m none else [] := by
  by_cases hi : i < n
  · rw [if_pos hi, List.getD_eq_getElem _ _ (by simpa using hi), List.getElem_replicate]
  · rw [if_neg hi, List.getD_eq_default _ _ (by simpa using Nat.le_of_not_lt hi)]

theorem replicate_cell_none {α : Type} (n m i c : Nat) :
    ((List.replicate n (List.replicate m (none : Option α))).getD i []).getD c none
      = none := by
  rw [replicate_row_getD]
  by_cases hi : i < n
  · rw [if_pos hi]
    by_cases hc : c < m
    · rw [List.getD_eq_getElem _ _ (by simpa using hc), List.getElem_replicate]
    · rw [List.getD_eq_default _ _ (by simpa using Nat.le_of_not_lt hc)]
  · rw [if_neg hi]
    rfl

theorem topKCore_ok {keys : List Nat} {rows : List TRow} {msize : Nat}
    (hkeys : ∀ r ∈ rows, r.key ∈ keys) :
    ∃ m, topKCore keys rows msize = Except.ok m := by
  rw [topKCore]
  apply applyWrites_ok
  intro rw hmem
  obtain ⟨j, hj, hrw, _⟩ := rankedKept_mem hmem
  obtain ⟨k, hk⟩ := lastIdx_isSome_of_mem (hkeys _ (rowAt_mem hj))
  rw [hrw]
  exact ⟨k, hk⟩

theorem topKCore_shape {keys : List Nat} {rows : List TRow} {msize : Nat}
    {its : MatI} {scs : MatS}
    (h : topKCore keys rows msize = Except.ok (its, scs)) :
    its.length = keys.length ∧ scs.length = keys.length ∧
      (∀ k, k < keys.length → (its.getD k []).length = msize) ∧
      (∀ k, k < keys.length → (scs.getD k []).length = msize) := by
  rw [topKCore] at h
  obtain ⟨h1, h2, h3, h4⟩ := applyWrites_shape h
  refine ⟨by simpa using h1, by simpa using h2, ?_, ?_⟩
  · intro k hk
    rw [h3 k, replicate_getD_length, if_pos hk]
  · intro k hk
    rw [h4 k, replicate_getD_length, if_pos hk]

/-- Every filled cell of the result comes from a kept ranked row
targeting that cell; unfilled cells keep the sentinel. -/
theorem topKCore_cell_src {keys : List Nat} {rows : List TRow} {msize : Nat}
    {its : MatI} {scs : MatS} {i c : Nat}
    (h : topKCore keys rows msize = Except.ok (its, scs)) :
    ((its.getD i []).getD c none = none ∧ (scs.getD i []).getD c none = none) ∨
    ∃ j, j < rows.length ∧ rankAt rows j ≤ msize ∧
      targetsAt keys (rowAt rows j, rankAt rows j) i c ∧
      (its.getD i []).getD c none = some (rowAt rows j).item ∧
      (scs.getD i []).getD c none = some (rowAt rows j).pred := by
  rw [topKCore] at h
  have hsh1 : (List.replicate keys.length (List.replicate msize (none : Option Nat))).length
      = (List.replicate keys.length (List.replicate msize (none : Option PredScore))).length := by
    simp
  have hsh2 : ∀ k,
      ((List.replicate keys.length (List.replicate msize (none : Option Nat))).getD k []).length
      = ((List.replicate keys.length
          (List.replicate msize (none : Option PredScore))).getD k []).length := by
    intro k
    rw [replicate_getD_length, replicate_getD_length]
  rcases applyWrites_cell_src h hsh1 hsh2 with ⟨h1, h2⟩ | ⟨rw, hmem, ht, hv1, hv2⟩
  · left
    rw [h1, h2, replicate_cell_none, replicate_cell_none]
    exact ⟨rfl, rfl⟩
  · right
    obtain ⟨j, hj, hrw, hle⟩ := rankedKept_mem hmem
    refine ⟨j, hj, hle, ?_, ?_, ?_⟩
    · rw [hrw] at ht; exact ht
    · rw [hrw] at hv1; exact hv1
    · rw [hrw] at hv2; exact hv2

/-- Conversely, every kept ranked row is written to its cell. -/
theorem topKCore_cell_of_rank {keys : List Nat} {rows : List TRow} {msize : Nat}
    {its : MatI} {scs : MatS} {j i : Nat}
    (hnn : ∀ r ∈ rows, r.pred.isNaN = false)
    (h : topKCore keys rows msize = Except.ok (its, scs))
    (hj : j < rows.length) (hle : rankAt rows j ≤ msize)
    (hidx : lastIdx keys (rowAt rows j).key = some i) :
    (its.getD i []).getD (rankAt rows j - 1) none = some (rowAt rows j).item ∧
      (scs.getD i []).getD (rankAt rows j - 1) none = some (rowAt rows j).pred := by
  rw [topKCore] at h
  have hilen : i < keys.length := (lastIdx_some_spec hidx).1
  have hclen : rankAt rows j - 1 < msize := by
    rw [rankAt] at hle ⊢
    omega
  exact applyWrites_cell_write h (rankedKept_mem_of hj hle) ⟨hidx, rfl⟩
    (fun rw hm ht => kept_target_unique hnn hm (rankedKept_mem_of hj hle) ht ⟨hidx, rfl⟩)
    (by simpa using hilen)
    (by rw [replicate_getD_length, if_pos hilen]; exact hclen)
    (by simpa using hilen)
    (by rw [replicate_getD_length, if_pos hilen]; exact hclen)

/-! ### The score tables -/

theorem dfTableU_nonnan (f : Nat → Nat → PredScore) (users movies : List Nat) :
    ∀ r ∈ dfTableU f users movies, r.pred.isNaN = false := by
  intro r hr
  rw [dfTableU] at hr
  have := (List.mem_filter.mp hr).2
  simpa using this

theorem dfTableM_nonnan (f : Nat → Nat → PredScore) (users movies : List Nat) :
    ∀ r ∈ dfTableM f users movies, r.pred.isNaN = false := by
  intro r hr
  rw [dfTableM] at hr
  have := (List.mem_filter.mp hr).2
  simpa using this

theorem dfTableU_mem {f : Nat → Nat → PredScore} {users movies : List Nat} {r : TRow}
    (hr : r ∈ dfTableU f users movies) :
    ∃ u ∈ users, ∃ m ∈ movies,
      r = ⟨toU32 u, toU32 m, f (toU32 u) (toU32 m)⟩ := by
  rw [dfTableU] at hr
  have hm := (List.mem_filter.mp hr).1
  obtain ⟨p, hp, hmk⟩ := List.mem_map.mp hm
  rw [userMoviePairU] at hp
  obtain ⟨l, hl, hpl⟩ := List.mem_flatten.mp hp
  obtain ⟨m, hmm, hlm⟩ := List.mem_map.mp hl
  subst hlm
  obtain ⟨u, hu, hpu⟩ := List.mem_map.mp hpl
  exact ⟨u, hu, m, hmm, by rw [← hmk, ← hpu]⟩

theorem dfTableM_mem {f : Nat → Nat → PredScore} {users movies : List Nat} {r : TRow}
    (hr : r ∈ dfTableM f users movies) :
    ∃ u ∈ users, ∃ m ∈ movies,
      r = ⟨toU32 m, toU32 u, f (toU32 u) (toU32 m)⟩ := by
  rw [dfTableM] at hr
  have hm := (List.mem_filter.mp hr).1
  obtain ⟨p, hp, hmk⟩ := List.mem_map.mp hm
  rw [userMoviePairM] at hp
  obtain ⟨l, hl, hpl⟩ := List.mem_flatten.mp hp
  obtain ⟨u, hu, hlu⟩ := List.mem_map.mp hl
  subst hlu
  obtain ⟨m, hmm, hpm⟩ := List.mem_map.mp hpl
  exact ⟨u, hu, m, hmm, by rw [← hmk, ← hpm]⟩

theorem userMoviePairU_ne_nil {users movies : List Nat} (hu : users ≠ [])
    (hm : movies ≠ []) : userMoviePairU users movies ≠ [] := by
  obtain ⟨u, us, rfl⟩ := List.exists_cons_of_ne_nil hu
  obtain ⟨m, ms, rfl⟩ := List.exists_cons_of_ne_nil hm
  simp [userMoviePairU]

theorem userMoviePairM_ne_nil {users movies : List Nat} (hu : users ≠ [])
    (hm : movies ≠ []) : userMoviePairM users movies ≠ [] := by
  obtain ⟨u, us, rfl⟩ := List.exists_cons_of_ne_nil hu
  obtain ⟨m, ms, rfl⟩ := List.exists_cons_of_ne_nil hm
  simp [userMoviePairM]

theorem recommendForUsers_ok_inv {f : Nat → Nat → PredScore} {users movies : List Nat}
    {maxsize : Option Nat} {r : MatI × MatS}
    (h : recommendForUsers f users movies maxsize = Except.ok r) :
    topKCore users (dfTableU f users movies) (maxsize.getD movies.length)
      = Except.ok r := by
  rw [recommendForUsers] at h
  by_cases hp : userMoviePairU users movies = []
  · rw [if_pos hp] at h
    exact Except.noConfusion h
  · rwa [if_neg hp] at h

theorem recommendForMovies_ok_inv {f : Nat → Nat → PredScore} {movies users : List Nat}
    {maxsize : Option Nat} {r : MatI × MatS}
    (h : recommendForMovies f movies users maxsize = Except.ok r) :
    topKCore movies (dfTableM f users movies) (maxsize.getD users.length)
      = Except.ok r := by
  rw [recommendForMovies] at h
  by_cases hp : userMoviePairM users movies = []
  · rw [if_pos hp] at h
    exact Except.noConfusion h
  · rwa [if_neg hp] at h

theorem recommendForUsers_ok {f : Nat → Nat → PredScore} {users movies : List Nat}
    {maxsize : Option Nat} (hune : users ≠ []) (hmne : movies ≠ [])
    (hu : ∀ u ∈ users, u < 4294967296) :
    ∃ m, recommendForUsers f users movies maxsize = Except.ok m := by
  rw [recommendForUsers, if_neg (userMoviePairU_ne_nil hune hmne)]
  apply topKCore_ok
  intro r hr
  obtain ⟨u, hu', m, hm, rfl⟩ := dfTableU_mem hr
  show toU32 u ∈ users
  rw [toU32, Nat.mod_eq_of_lt (hu u hu')]
  exact hu'

theorem recommendForMovies_ok {f : Nat → Nat → PredScore} {movies users : List Nat}
    {maxsize : Option Nat} (hmne : movies ≠ []) (hune : users ≠ [])
    (hm : ∀ m ∈ movies, m < 4294967296) :
    ∃ r, recommendForMovies f movies users maxsize = Except.ok r := by
  rw [recommendForMovies, if_neg (userMoviePairM_ne_nil hune hmne)]
  apply topKCore_ok
  intro r hr
  obtain ⟨u, hu', m, hm', rfl⟩ := dfTableM_mem hr
  show toU32 m ∈ movies
  rw [toU32, Nat.mod_eq_of_lt (hm m hm')]
  exact hm'

/-! ### The batch driver -/

theorem numBatches_pos {n : Nat} (h : 0 < n) : 0 < numBatches n := by
  rw [numBatches]
  omega

theorem sliceL_length {srcs : List Nat} {k : Nat} (hk : k < numBatches srcs.length) :
    (sliceL srcs k).length = min ((k + 1) * 100) srcs.length - k * 100 := by
  rw [sliceL, List.length_take, List.length_drop]
  rw [numBatches] at hk
  omega

theorem sliceL_ne_nil {srcs : List Nat} {k : Nat} (hk : k < numBatches srcs.length) :
    sliceL srcs k ≠ [] := by
  intro h
  have hl := sliceL_length hk
  rw [h, List.length_nil] at hl
  rw [numBatches] at hk
  omega

theorem sum_slice_lengths (n : Nat) :
    ∀ k, k ≤ numBatches n →
      ((List.range k).map (fun j => min ((j + 1) * 100) n - j * 100)).sum
        = min (k * 100) n := by
  intro k
  induction k with
  | zero => intro _; simp
  | succ k ih =>
    intro hk
    rw [List.range_succ, List.map_append, List.sum_append, ih (Nat.le_of_succ_le hk)]
    simp only [List.map_cons, List.map_nil, List.sum_cons, List.sum_nil]
    rw [numBatches] at hk
    omega

/-- Characterisation of the batch loop after `k` iterations: every batch
so far succeeded, and the accumulator row-stacks the sub-matrices in
batch order (`None` only before the first iteration). -/
theorem batchFold_spec (sub : List Nat → Except String (MatI × MatS)) (srcs : List Nat) :
    ∀ (k : Nat) (acc : Option (MatI × MatS)),
      (List.range k).foldlM (batchStep sub srcs) none = Except.ok acc →
      (k = 0 ∧ acc = none) ∨
      (0 < k ∧ ∃ parts : List (MatI × MatS), parts.length = k ∧
        (∀ j, j < k → sub (sliceL srcs j) = Except.ok (parts.getD j ([], []))) ∧
        acc = some ((parts.map Prod.fst).flatten, (parts.map Prod.snd).flatten)) := by
  intro k
  induction k with
  | zero =>
    intro acc h
    left
    have h' : Except.ok (none : Option (MatI × MatS)) = Except.ok acc := h
    exact ⟨rfl, (Except.ok.inj h').symm⟩
  | succ k ih =>
    intro acc h
    right
    refine ⟨Nat.succ_pos _, ?_⟩
    rw [List.range_succ, List.foldlM_append] at h
    cases hfold : (List.range k).foldlM (batchStep sub srcs) none with
    | error e =>
      rw [hfold] at h
      exact Except.noConfusion (show Except.error e = Except.ok acc from h)
    | ok acc' =>
      rw [hfold] at h
      have h' : batchStep sub srcs acc' k >>= pure = Except.ok acc := h
      cases hstep : batchStep sub srcs acc' k with
      | error e =>
        rw [hstep] at h'
        exact Except.noConfusion (show Except.error e = Except.ok acc from h')
      | ok acc2 =>
        rw [hstep] at h'
        have hacc : acc2 = acc :=
          Except.ok.inj (show Except.ok acc2 = Except.ok acc from h')
        unfold batchStep at hstep
        cases hsubk : sub (sliceL srcs k) with
        | error e2 =>
          rw [hsubk] at hstep
          exact Except.noConfusion (show Except.error e2 = Except.ok acc2 from hstep)
        | ok p =>
          obtain ⟨si, ss⟩ := p
          rw [hsubk] at hstep
          rcases ih acc' hfold with ⟨hk0, rfl⟩ | ⟨hkpos, parts, hlen, hsubp, rfl⟩
          · subst hk0
            have hacc2 : Except.ok (some ((si : MatI), (ss : MatS))) = Except.ok acc2 :=
              hstep
            refine ⟨[(si, ss)], rfl, ?_, ?_⟩
            · intro j hj
              have hj0 : j = 0 := by omega
              subst hj0
              exact hsubk
            · rw [← hacc, ← Except.ok.inj hacc2]
              simp
          · have hacc2 : Except.ok (some
                ((parts.map Prod.fst).flatten ++ si, (parts.map Prod.snd).flatten ++ ss))
                = Except.ok acc2 := hstep
            refine ⟨parts ++ [(si, ss)], by simp [hlen], ?_, ?_⟩
            · intro j hj
              by_cases hjk : j < k
              · rw [List.getD_append _ _ _ _ (by omega)]
                exact hsubp j hjk
              · have hjeq : j = k := by omega
                subst hjeq
                rw [List.getD_append_right _ _ _ _ (by omega)]
                rw [hlen]
                simpa using hsubk
            · rw [← hacc, ← Except.ok.inj hacc2]
              simp

theorem batchFold_ok (sub : List Nat → Except String (MatI × MatS)) (srcs : List Nat) :
    ∀ k, (∀ j, j < k → ∃ p : MatI × MatS, sub (sliceL srcs j) = Except.ok p) →
      ∃ acc, (List.range k).foldlM (batchStep sub srcs) none = Except.ok acc := by
  intro k
  induction k with
  | zero => intro _; exact ⟨none, rfl⟩
  | succ k ih =>
    intro hall
    obtain ⟨acc, hacc⟩ := ih (fun j hj => hall j (Nat.lt_succ_of_lt hj))
    obtain ⟨p, hp⟩ := hall k (Nat.lt_succ_self _)
    obtain ⟨si, ss⟩ := p
    rw [List.range_succ, List.foldlM_append, hacc]
    cases acc with
    | none =>
      refine ⟨some (si, ss), ?_⟩
      show batchStep sub srcs none k >>= pure = _
      unfold batchStep
      rw [hp]
      rfl
    | some rp =>
      obtain ⟨ri, rs⟩ := rp
      refine ⟨some (ri ++ si, rs ++ ss), ?_⟩
      show batchStep sub srcs (some (ri, rs)) k >>= pure = _
      unfold batchStep
      rw [hp]
      rfl

theorem batchDriver_spec {sub : List Nat → Except String (MatI × MatS)} {srcs : List Nat}
    {its : MatI} {scs : MatS}
    (h : batchDriver sub srcs = Except.ok (its, scs)) :
    0 < numBatches srcs.length ∧
      its.length = srcs.length ∧ scs.length = srcs.length ∧
      ∃ parts : List (MatI × MatS), parts.length = numBatches srcs.length ∧
        (∀ j, j < numBatches srcs.length →
          sub (sliceL srcs j) = Except.ok (parts.getD j ([], []))) ∧
        its = (parts.map Prod.fst).flatten ∧ scs = (parts.map Prod.snd).flatten := by
  rw [batchDriver] at h
  cases hfold : (List.range (numBatches srcs.length)).foldlM (batchStep sub srcs) none with
  | error e =>
    rw [hfold] at h
    exact Except.noConfusion (show Except.error e = Except.ok (its, scs) from h)
  | ok acc =>
    rw [hfold] at h
    rcases batchFold_spec sub srcs _ acc hfold with ⟨hk0, rfl⟩ | ⟨hk, parts, hlen, hsub, rfl⟩
    · exact Except.noConfusion
        (show Except.error "AttributeError: NoneType object has no attribute shape"
          = Except.ok (its, scs) from h)
    · have h' : (if (parts.map Prod.fst).flatten.length = srcs.length ∧
          (parts.map Prod.snd).flatten.length = srcs.length then
          Except.ok ((parts.map Prod.fst).flatten, (parts.map Prod.snd).flatten)
        else Except.error "AssertionError") = Except.ok (its, scs) := h
      by_cases hcond : (parts.map Prod.fst).flatten.length = srcs.length ∧
          (parts.map Prod.snd).flatten.length = srcs.length
      · rw [if_pos hcond] at h'
        have hpair := Except.ok.inj h'
        have h1 : (parts.map Prod.fst).flatten = its := congrArg Prod.fst hpair
        have h2 : (parts.map Prod.snd).flatten = scs := congrArg Prod.snd hpair
        exact ⟨hk, h1 ▸ hcond.1, h2 ▸ hcond.2, parts, hlen, hsub, h1.symm, h2.symm⟩
      · rw [if_neg hcond] at h'
        exact Except.noConfusion h'

theorem batchDriver_ok {sub : List Nat → Except String (MatI × MatS)} {srcs : List Nat}
    (hne : srcs ≠ [])
    (hsub : ∀ j, j < numBatches srcs.length →
      ∃ p : MatI × MatS, sub (sliceL srcs j) = Except.ok p ∧
        p.1.length = (sliceL srcs j).length ∧ p.2.length = (sliceL srcs j).length) :
    ∃ r, batchDriver sub srcs = Except.ok r := by
  have hn : 0 < srcs.length := List.length_pos.mpr hne
  obtain ⟨acc, hacc⟩ := batchFold_ok sub srcs (numBatches srcs.length)
    (fun j hj => (hsub j hj).imp (fun p hp => hp.1))
  rcases batchFold_spec sub srcs _ acc hacc with ⟨hk0, _⟩ | ⟨hk, parts, hlen, hsubp, rfl⟩
  · exact absurd hk0 (Nat.pos_iff_ne_zero.mp (numBatches_pos hn))
  · have hpartlen : ∀ i, i < numBatches srcs.length →
        (parts.getD i ([], [])).1.length = (sliceL srcs i).length ∧
        (parts.getD i ([], [])).2.length = (sliceL srcs i).length := by
      intro i hi
      obtain ⟨p, hp, hl1, hl2⟩ := hsub i hi
      have hpeq : p = parts.getD i ([], []) := Except.ok.inj (hp.symm.trans (hsubp i hi))
      rw [← hpeq]
      exact ⟨hl1, hl2⟩
    have hmap1 : (parts.map Prod.fst).map List.length
        = (List.range (numBatches srcs.length)).map
          (fun j => min ((j + 1) * 100) srcs.length - j * 100) := by
      apply List.ext_getElem
      · simp [hlen]
      · intro i h1 h2
        simp only [List.getElem_map, List.getElem_range]
        have hi : i < numBatches srcs.length := by
          simpa [hlen] using h2
        have hip : i < parts.length := by omega
        rw [← List.getD_eq_getElem parts ([], []) hip]
        rw [(hpartlen i hi).1, sliceL_length hi]
    have hmap2 : (parts.map Prod.snd).map List.length
        = (List.range (numBatches srcs.length)).map
          (fun j => min ((j + 1) * 100) srcs.length - j * 100) := by
      apply List.ext_getElem
      · simp [hlen]
      · intro i h1 h2
        simp only [List.getElem_map, List.getElem_range]
        have hi : i < numBatches srcs.length := by
          simpa [hlen] using h2
        have hip : i < parts.length := by omega
        rw [← List.getD_eq_getElem parts ([], []) hip]
        rw [(hpartlen i hi).2, sliceL_length hi]
    have hsum := sum_slice_lengths srcs.length (numBatches srcs.length) (Nat.le_refl _)
    have hminn : min (numBatches srcs.length * 100) srcs.length = srcs.length := by
      rw [numBatches]
      omega
    have hflen : (parts.map Prod.fst).flatten.length = srcs.length := by
      rw [List.length_flatten, hmap1, hsum, hminn]
    have hslen : (parts.map Prod.snd).flatten.length = srcs.length := by
      rw [List.length_flatten, hmap2, hsum, hminn]
    refine ⟨((parts.map Prod.fst).flatten, (parts.map Prod.snd).flatten), ?_⟩
    rw [batchDriver, hacc]
    show (if (parts.map Prod.fst).flatten.length = srcs.length ∧
        (parts.map Prod.snd).flatten.length = srcs.length then
        Except.ok ((parts.map Prod.fst).flatten, (parts.map Prod.snd).flatten)
      else Except.error "AssertionError") = _
    rw [if_pos ⟨hflen, hslen⟩]

/-! ### Glue lemmas for the public entry point -/

theorem recommend_movie (f : Nat → Nat → PredScore) (users movies : List Nat)
    (maxsize : Option Nat) :
    recommend f "movie" users movies maxsize
      = batchDriver (fun us => recommendForUsers f us movies maxsize) users := by
  rw [recommend, if_pos rfl]

theorem recommend_user (f : Nat → Nat → PredScore) (users movies : List Nat)
    (maxsize : Option Nat) :
    recommend f "user" users movies maxsize
      = batchDriver (fun mv => recommendForMovies f mv users maxsize) movies := by
  rw [recommend, if_neg (by decide), if_pos rfl]

theorem toU32_idem (n : Nat) : toU32 (toU32 n) = toU32 n := by
  simp only [toU32]
  omega

theorem topKCore_row_lengths {keys : List Nat} {rows : List TRow} {msize : Nat}
    {its : MatI} {scs : MatS}
    (h : topKCore keys rows msize = Except.ok (its, scs)) :
    (∀ r ∈ its, r.length = msize) ∧ (∀ r ∈ scs, r.length = msize) := by
  obtain ⟨h1, h2, h3, h4⟩ := topKCore_shape h
  constructor
  · intro r hr
    obtain ⟨k, hk, hkr⟩ := List.getElem_of_mem hr
    rw [← hkr, ← List.getD_eq_getElem its [] hk]
    exact h3 k (by omega)
  · intro r hr
    obtain ⟨k, hk, hkr⟩ := List.getElem_of_mem hr
    rw [← hkr, ← List.getD_eq_getElem scs [] hk]
    exact h4 k (by omega)

/-- The three per-row output properties of the core: sentinels only trail
filled cells, the two matrices are filled at the same cells, and filled
scores are in descending order. -/
theorem topKCore_row_props {keys : List Nat} {rows : List TRow} {msize : Nat}
    {its : MatI} {scs : MatS} (i : Nat)
    (hnn : ∀ r ∈ rows, r.pred.isNaN = false)
    (h : topKCore keys rows msize = Except.ok (its, scs)) :
    (∀ c1 c2, c1 < c2 → (scs.getD i []).getD c2 none ≠ none →
      (scs.getD i []).getD c1 none ≠ none) ∧
    (∀ c, (its.getD i []).getD c none = none ↔ (scs.getD i []).getD c none = none) ∧
    (∀ c1 c2 s1 s2, c1 < c2 → (scs.getD i []).getD c1 none = some s1 →
      (scs.getD i []).getD c2 none = some s2 →
      (scoreGT s1 s2 || scoreEQ s1 s2) = true) := by
  refine ⟨?_, ?_, ?_⟩
  · intro c1 c2 hc hne
    rcases topKCore_cell_src (i := i) (c := c2) h with ⟨_, h2⟩ | ⟨j, hj, hle, ht, _, _⟩
    · exact absurd h2 hne
    · obtain ⟨hidx, hcj⟩ := ht
      have hcnt : rankCnt rows j = c2 := by
        rw [rankAt] at hcj
        omega
      obtain ⟨y, hy, hor⟩ := rankCnt_reach hnn c2 j hcnt c1 (Nat.le_of_lt hc)
      have hByj : beatsIdx rows y j = true := by
        rcases hor with rfl | hB
        · omega
        · exact hB
      have hylt : y < rows.length := beatsIdx_lt_left hByj
      have hykey : (rowAt rows y).key = (rowAt rows j).key := beatsIdx_key hByj
      have hyle : rankAt rows y ≤ msize := by
        rw [rankAt, hy]
        rw [rankAt] at hle
        omega
      have hyidx : lastIdx keys (rowAt rows y).key = some i := by
        rw [hykey]
        exact hidx
      have := topKCore_cell_of_rank hnn h hylt hyle hyidx
      have hcy : rankAt rows y - 1 = c1 := by
        rw [rankAt, hy]
        omega
      rw [hcy] at this
      rw [this.2]
      exact Option.some_ne_none _
  · intro c
    rcases topKCore_cell_src (i := i) (c := c) h with ⟨h1, h2⟩ | ⟨j, hj, hle, ht, h1, h2⟩
    · rw [h1, h2]
      simp
    · rw [h1, h2]
      simp
  · intro c1 c2 s1 s2 hc hs1 hs2
    rcases topKCore_cell_src (i := i) (c := c1) h with ⟨_, h2⟩ | ⟨j1, hj1, hle1, ht1, _, hp1⟩
    · rw [h2] at hs1
      cases hs1
    rcases topKCore_cell_src (i := i) (c := c2) h with ⟨_, h2'⟩ | ⟨j2, hj2, hle2, ht2, _, hp2⟩
    · rw [h2'] at hs2
      cases hs2
    obtain ⟨hidx1, hc1⟩ := ht1
    obtain ⟨hidx2, hc2⟩ := ht2
    have hcnt1 : rankCnt rows j1 = c1 := by
      rw [rankAt] at hc1
      omega
    have hcnt2 : rankCnt rows j2 = c2 := by
      rw [rankAt] at hc2
      omega
    have hkeyeq : (rowAt rows j1).key = (rowAt rows j2).key := by
      have g1 := (lastIdx_some_spec hidx1).2.1
      have g2 := (lastIdx_some_spec hidx2).2.1
      rw [← g1, ← g2]
    have hjne : j1 ≠ j2 := by
      intro he
      rw [he, hcnt2] at hcnt1
      omega
    have hv1 : (rowAt rows j1).pred = s1 := by
      rw [hp1] at hs1
      exact Option.some.inj hs1
    have hv2 : (rowAt rows j2).pred = s2 := by
      rw [hp2] at hs2
      exact Option.some.inj hs2
    rcases beatsIdx_connex hjne hkeyeq (hnn _ (rowAt_mem hj1)) (hnn _ (rowAt_mem hj2))
      with hb | hb
    · obtain ⟨_, hor⟩ := beatsIdx_iff.mp hb
      rcases hor with hgt | ⟨heq, _⟩
      · rw [hv1, hv2] at hgt
        rw [hgt]
        rfl
      · rw [hv1, hv2] at heq
        rw [heq]
        simp
    · have := rankCnt_lt hb
      rw [hcnt1, hcnt2] at this
      omega

/-! ### Row extraction through the batch accumulation -/

theorem flatten_getD_chunk {α : Type} (d : α) :
    ∀ (L : List (List α)) (k r : Nat),
      (∀ j, j < k → (L.getD j []).length = 100) →
      k < L.length → r < (L.getD k []).length →
      L.flatten.getD (k * 100 + r) d = (L.getD k []).getD r d := by
  intro L
  induction L with
  | nil =>
    intro k r _ hk _
    cases hk
  | cons x xs ih =>
    intro k r huni hk hr
    cases k with
    | zero =>
      have hx : (x :: xs).getD 0 [] = x := rfl
      rw [hx] at hr
      simp only [List.flatten_cons, Nat.zero_mul, Nat.zero_add, List.getD_cons_zero]
      rw [List.getD_append _ _ _ _ hr]
    | succ k =>
      have hxlen : x.length = 100 := by
        have := huni 0 (Nat.succ_pos _)
        simpa using this
      simp only [List.flatten_cons, List.getD_cons_succ]
      rw [List.getD_append_right _ _ _ _ (by omega)]
      have harith : (k + 1) * 100 + r - x.length = k * 100 + r := by omega
      rw [harith]
      have h1 : ∀ j, j < k → (xs.getD j []).length = 100 := by
        intro j hj
        have := huni (j + 1) (by omega)
        simpa using this
      have h2 : k < xs.length := by simpa using hk
      have h3 : r < (xs.getD k []).length := by simpa using hr
      exact ih k r h1 h2 h3

theorem sliceL_getD {srcs : List Nat} {k r : Nat} (hr : r < (sliceL srcs k).length) :
    (sliceL srcs k).getD r 0 = srcs.getD (k * 100 + r) 0 := by
  have hb : k * 100 + r < srcs.length := by
    rw [sliceL, List.length_take, List.length_drop] at hr
    omega
  rw [sliceL] at hr ⊢
  rw [List.getD_eq_getElem _ _ hr, List.getD_eq_getElem _ _ hb]
  simp [List.getElem_take, List.getElem_drop]

theorem zip_flatten_parts :
    ∀ (parts : List (MatI × MatS)),
      (∀ p ∈ parts, p.1.length = p.2.length) →
      ((parts.map Prod.fst).flatten).zip ((parts.map Prod.snd).flatten)
        = (parts.map (fun p => p.1.zip p.2)).flatten := by
  intro parts
  induction parts with
  | nil => intro _; rfl
  | cons p ps ih =>
    intro h
    simp only [List.map_cons, List.flatten_cons]
    rw [List.zip_append (h p (List.mem_cons_self _ _)),
      ih (fun q hq => h q (List.mem_cons_of_mem _ hq))]

theorem zip_mem_getD {l1 : MatI} {l2 : MatS}
    {rp : List (Option Nat) × List (Option PredScore)}
    (h : rp ∈ l1.zip l2) :
    ∃ i, i < l1.length ∧ i < l2.length ∧ rp.1 = l1.getD i [] ∧ rp.2 = l2.getD i [] := by
  obtain ⟨i, hi, hg⟩ := List.getElem_of_mem h
  have hi1 : i < l1.length := by
    rw [List.length_zip] at hi
    omega
  have hi2 : i < l2.length := by
    rw [List.length_zip] at hi
    omega
  rw [List.getElem_zip] at hg
  refine ⟨i, hi1, hi2, ?_, ?_⟩
  · rw [← hg, List.getD_eq_getElem _ _ hi1]
  · rw [← hg, List.getD_eq_getElem _ _ hi2]

theorem recommendForUsers_ok_shape {f : Nat → Nat → PredScore} {users movies : List Nat}
    {maxsize : Option Nat} (hune : users ≠ []) (hmne : movies ≠ [])
    (hu : ∀ u ∈ users, u < 4294967296) :
    ∃ its scs, recommendForUsers f users movies maxsize = Except.ok (its, scs) ∧
      its.length = users.length ∧ scs.length = users.length ∧
      (∀ r ∈ its, r.length = maxsize.getD movies.length) ∧
      (∀ r ∈ scs, r.length = maxsize.getD movies.length) := by
  obtain ⟨⟨its, scs⟩, hok⟩ := @recommendForUsers_ok f users movies maxsize hune hmne hu
  have hok' := recommendForUsers_ok_inv hok
  obtain ⟨h1, h2, _, _⟩ := topKCore_shape hok'
  obtain ⟨h3, h4⟩ := topKCore_row_lengths hok'
  exact ⟨its, scs, hok, h1, h2, h3, h4⟩

theorem recommendForMovies_ok_shape {f : Nat → Nat → PredScore} {movies users : List Nat}
    {maxsize : Option Nat} (hmne : movies ≠ []) (hune : users ≠ [])
    (hm : ∀ m ∈ movies, m < 4294967296) :
    ∃ its scs, recommendForMovies f movies users maxsize = Except.ok (its, scs) ∧
      its.length = movies.length ∧ scs.length = movies.length ∧
      (∀ r ∈ its, r.length = maxsize.getD users.length) ∧
      (∀ r ∈ scs, r.length = maxsize.getD users.length) := by
  obtain ⟨⟨its, scs⟩, hok⟩ := @recommendForMovies_ok f movies users maxsize hmne hune hm
  have hok' := recommendForMovies_ok_inv hok
  obtain ⟨h1, h2, _, _⟩ := topKCore_shape hok'
  obtain ⟨h3, h4⟩ := topKCore_row_lengths hok'
  exact ⟨its, scs, hok, h1, h2, h3, h4⟩

/-! ### The claims -/

/-- C1 (amended): for a valid direction, a *nonempty* list of source
entities whose ids fit in 32 bits, a *nonempty* target list and any
maxsize, `recommend` succeeds and both returned matrices have shape
`(number of sources, maxsize)`, where an unset maxsize defaults to the
total number of target candidates.  (The original claim covered every
input; on the code an empty source list raises `AttributeError`, an
empty target list raises `ValueError` at the `np.hstack`, and a source
id of 2^32 or more can raise `KeyError` — see `C1_counterexample` for
all three.) -/
theorem C1_shape (f : Nat → Nat → PredScore) (rt : String)
    (users movies srcs tgts : List Nat) (maxsize : Option Nat)
    (hdir : (rt = "movie" ∧ srcs = users ∧ tgts = movies) ∨
      (rt = "user" ∧ srcs = movies ∧ tgts = users))
    (hne : srcs ≠ []) (hts : tgts ≠ []) (h32 : ∀ s ∈ srcs, s < 4294967296) :
    ∃ its scs, recommend f rt users movies maxsize = Except.ok (its, scs) ∧
      its.length = srcs.length ∧ scs.length = srcs.length ∧
      (∀ r ∈ its, r.length = maxsize.getD tgts.length) ∧
      (∀ r ∈ scs, r.length = maxsize.getD tgts.length) := by
  have hrows : ∀ (sub : List Nat → Except String (MatI × MatS)),
      (∀ us : List Nat, us ≠ [] → (∀ u ∈ us, u ∈ srcs) →
        ∃ its scs, sub us = Except.ok (its, scs) ∧
          its.length = us.length ∧ scs.length = us.length ∧
          (∀ r ∈ its, r.length = maxsize.getD tgts.length) ∧
          (∀ r ∈ scs, r.length = maxsize.getD tgts.length)) →
      ∃ its scs, batchDriver sub srcs = Except.ok (its, scs) ∧
        its.length = srcs.length ∧ scs.length = srcs.length ∧
        (∀ r ∈ its, r.length = maxsize.getD tgts.length) ∧
        (∀ r ∈ scs, r.length = maxsize.getD tgts.length) := by
    intro sub hsub
    have hslice : ∀ j, j < numBatches srcs.length → ∀ u ∈ sliceL srcs j, u ∈ srcs := by
      intro j _ u hu
      rw [sliceL] at hu
      exact List.mem_of_mem_drop (List.mem_of_mem_take hu)
    obtain ⟨⟨its, scs⟩, hok⟩ := batchDriver_ok hne (fun j hj => by
      obtain ⟨bi, bs, hbok, hbl1, hbl2, _, _⟩ :=
        hsub (sliceL srcs j) (sliceL_ne_nil hj) (hslice j hj)
      exact ⟨(bi, bs), hbok, hbl1, hbl2⟩)
    obtain ⟨_, hl1, hl2, parts, hplen, hpsub, hits, hscs⟩ := batchDriver_spec hok
    refine ⟨its, scs, hok, hl1, hl2, ?_, ?_⟩
    · intro r hr
      rw [hits] at hr
      obtain ⟨l, hl, hrl⟩ := List.mem_flatten.mp hr
      obtain ⟨p, hp, hpl⟩ := List.mem_map.mp hl
      obtain ⟨j, hj, hjp⟩ := List.getElem_of_mem hp
      have hjlt : j < numBatches srcs.length := by omega
      have hpd : parts.getD j ([], []) = p := by
        rw [List.getD_eq_getElem parts ([], []) hj, hjp]
      obtain ⟨bi, bs, hbok, _, _, hbr, _⟩ :=
        hsub (sliceL srcs j) (sliceL_ne_nil hjlt) (hslice j hjlt)
      have hpbi : p = (bi, bs) := by
        have := hpsub j hjlt
        rw [hpd] at this
        exact Except.ok.inj (this.symm.trans hbok)
      apply hbr
      have hlb : l = bi := by rw [← hpl, hpbi]
      rw [← hlb]
      exact hrl
    · intro r hr
      rw [hscs] at hr
      obtain ⟨l, hl, hrl⟩ := List.mem_flatten.mp hr
      obtain ⟨p, hp, hpl⟩ := List.mem_map.mp hl
      obtain ⟨j, hj, hjp⟩ := List.getElem_of_mem hp
      have hjlt : j < numBatches srcs.length := by omega
      have hpd : parts.getD j ([], []) = p := by
        rw [List.getD_eq_getElem parts ([], []) hj, hjp]
      obtain ⟨bi, bs, hbok, _, _, _, hbr⟩ :=
        hsub (sliceL srcs j) (sliceL_ne_nil hjlt) (hslice j hjlt)
      have hpbs : p = (bi, bs) := by
        have := hpsub j hjlt
        rw [hpd] at this
        exact Except.ok.inj (this.symm.trans hbok)
      apply hbr
      have hlb : l = bs := by rw [← hpl, hpbs]
      rw [← hlb]
      exact hrl
  rcases hdir with ⟨rfl, rfl, rfl⟩ | ⟨rfl, rfl, rfl⟩
  · rw [recommend_movie]
    exact hrows _ (fun us husne hus =>
      recommendForUsers_ok_shape husne hts (fun u hu => h32 u (hus u hu)))
  · rw [recommend_user]
    exact hrows _ (fun mv hmvne hmv =>
      recommendForMovies_ok_shape hmvne hts (fun m hm => h32 m (hmv m hm)))

/-- C1 counterexample: the claim as stated covers every input, but
`recommend` raises instead of returning the promised matrices in three
cases.  With an empty source list the batch loop runs zero times and
`rec_items` is still `None` when `.shape` is read (AttributeError,
model.py:183).  With an empty target list the pair array is 1-D of
shape `(0,)` and `np.hstack` with the 2-D `(0, 1)` predicted column
raises ValueError (model.py:75/113).  With a source id of 2^32 or more
the index dict is keyed by the uncast id while the dataframe holds the
uint32-cast id, so the write loop raises KeyError (model.py:97). -/
theorem C1_counterexample :
    recommend (fun _ _ => PredScore.nan) "movie" [] [10] none
        = Except.error "AttributeError: NoneType object has no attribute shape" ∧
      recommend (fun _ _ => PredScore.fin 1) "movie" [1] [] none
        = Except.error "ValueError: all the input arrays must have same number of dimensions" ∧
      recommend (fun _ _ => PredScore.fin 1) "movie" [4294967297] [7] none
        = Except.error "KeyError" :=
  ⟨rfl, rfl, rfl⟩

/-- C3: inside one group of the ranking table (same key), two rows with
IEEE-equal scores are ranked by their position in the constructed
cross-product table: the earlier row gets the strictly better rank.
This holds for the table of either direction. -/
theorem C3_tie_break (f : Nat → Nat → PredScore) (users movies : List Nat)
    (tbl : List TRow) (j1 j2 : Nat)
    (htbl : tbl = dfTableU f users movies ∨ tbl = dfTableM f users movies)
    (hlt : j1 < j2) (hj2 : j2 < tbl.length)
    (hkey : (rowAt tbl j1).key = (rowAt tbl j2).key)
    (heq : scoreEQ (rowAt tbl j1).pred (rowAt tbl j2).pred = true) :
    rankAt tbl j1 < rankAt tbl j2 := by
  have hb : beatsIdx tbl j1 j2 = true :=
    beatsIdx_iff.mpr ⟨hkey, Or.inr ⟨heq, hlt⟩⟩
  rw [rankAt, rankAt]
  have := rankCnt_lt hb
  omega

/-- C6 (amended): a pair is dropped from the ranking table exactly when
its score is NaN (the null/missing float); non-finite but non-null
scores (the infinities) are kept and ranked.  (The original claim said
every non-finite score is excluded; `C6_counterexample` shows a +inf
score surviving into the output.) -/
theorem C6_nan_dropped (f : Nat → Nat → PredScore) (users movies : List Nat)
    (p : Nat × Nat) :
    (p ∈ userMoviePairU users movies →
      (TRow.mk p.1 p.2 (f p.1 p.2) ∈ dfTableU f users movies ↔
        (f p.1 p.2).isNaN = false)) ∧
    (p ∈ userMoviePairM users movies →
      (TRow.mk p.2 p.1 (f p.1 p.2) ∈ dfTableM f users movies ↔
        (f p.1 p.2).isNaN = false)) := by
  constructor
  · intro hp
    constructor
    · intro hmem
      have := (List.mem_filter.mp ((by rw [dfTableU] at hmem; exact hmem))).2
      simpa using this
    · intro hnn
      rw [dfTableU]
      refine List.mem_filter.mpr ⟨?_, by simpa using hnn⟩
      exact List.mem_map.mpr ⟨p, hp, rfl⟩
  · intro hp
    constructor
    · intro hmem
      have := (List.mem_filter.mp ((by rw [dfTableM] at hmem; exact hmem))).2
      simpa using this
    · intro hnn
      rw [dfTableM]
      refine List.mem_filter.mpr ⟨?_, by simpa using hnn⟩
      exact List.mem_map.mpr ⟨p, hp, rfl⟩

/-- C6 counterexample: a pair scored `+inf` (non-finite, but not null)
is *not* excluded: it survives `dropna`, ranks first, and appears in the
returned matrices. -/
theorem C6_counterexample :
    recommend (fun _ _ => PredScore.posInf) "movie" [1] [2] none
      = Except.ok ([[some 2]], [[some PredScore.posInf]]) := by
  rfl

/-- C7: any direction string other than "movie" and "user" makes
`recommend` fail with the invalid-argument error, independently of the
scoring function and of the entity lists — no batching is attempted and
the scoring function is never consulted. -/
theorem C7_invalid_direction (f : Nat → Nat → PredScore) (rt : String)
    (users movies : List Nat) (maxsize : Option Nat)
    (h1 : rt ≠ "movie") (h2 : rt ≠ "user") :
    recommend f rt users movies maxsize = Except.error "wrong recommended_type" := by
  rw [recommend, if_neg h1, if_neg h2]

/-- C8: with a valid direction but an empty source-entity list the batch
loop runs zero times, the accumulator is still `None`, and reading
`.shape` on it raises — no pair of 0-row matrices is returned. -/
theorem C8_empty_sources (f : Nat → Nat → PredScore) (users movies : List Nat)
    (maxsize : Option Nat) :
    recommend f "movie" [] movies maxsize
        = Except.error "AttributeError: NoneType object has no attribute shape" ∧
      recommend f "user" users [] maxsize
        = Except.error "AttributeError: NoneType object has no attribute shape" := by
  constructor
  · rw [recommend_movie]
    rfl
  · rw [recommend_user]
    rfl

theorem map_fst_getD (parts : List (MatI × MatS)) (j : Nat) :
    (parts.map Prod.fst).getD j [] = (parts.getD j ([], [])).1 := by
  by_cases hj : j < parts.length
  · rw [List.getD_eq_getElem _ _ (by simpa using hj), List.getD_eq_getElem _ _ hj,
      List.getElem_map]
  · rw [List.getD_eq_default _ _ (by simpa using Nat.le_of_not_lt hj),
      List.getD_eq_default _ _ (Nat.le_of_not_lt hj)]

theorem map_snd_getD (parts : List (MatI × MatS)) (j : Nat) :
    (parts.map Prod.snd).getD j [] = (parts.getD j ([], [])).2 := by
  by_cases hj : j < parts.length
  · rw [List.getD_eq_getElem _ _ (by simpa using hj), List.getD_eq_getElem _ _ hj,
      List.getElem_map]
  · rw [List.getD_eq_default _ _ (by simpa using Nat.le_of_not_lt hj),
      List.getD_eq_default _ _ (Nat.le_of_not_lt hj)]

/-- Row `i` of the accumulated matrices is row `i % 100` of batch
`i / 100`. -/
theorem batchDriver_row {sub : List Nat → Except String (MatI × MatS)} {srcs : List Nat}
    {its : MatI} {scs : MatS} {i : Nat}
    (h : batchDriver sub srcs = Except.ok (its, scs))
    (hshape : ∀ us bi bs, sub us = Except.ok (bi, bs) →
      bi.length = us.length ∧ bs.length = us.length)
    (hi : i < srcs.length) :
    ∃ bi bs, sub (sliceL srcs (i / 100)) = Except.ok (bi, bs) ∧
      its.getD i [] = bi.getD (i % 100) [] ∧
      scs.getD i [] = bs.getD (i % 100) [] := by
  obtain ⟨hk, _, _, parts, hplen, hpsub, hits, hscs⟩ := batchDriver_spec h
  have hklt : i / 100 < numBatches srcs.length := by
    rw [numBatches]
    omega
  have hikr : (i / 100) * 100 + i % 100 = i := by omega
  have hrowlen : ∀ j, j < numBatches srcs.length →
      (parts.getD j ([], [])).1.length = (sliceL srcs j).length ∧
      (parts.getD j ([], [])).2.length = (sliceL srcs j).length := by
    intro j hj
    have hsu := hpsub j hj
    exact hshape _ _ _ (by rw [hsu])
  have huni1 : ∀ j, j < i / 100 → ((parts.map Prod.fst).getD j []).length = 100 := by
    intro j hj
    have hjnb : j < numBatches srcs.length := by omega
    rw [map_fst_getD, (hrowlen j hjnb).1, sliceL_length hjnb]
    omega
  have huni2 : ∀ j, j < i / 100 → ((parts.map Prod.snd).getD j []).length = 100 := by
    intro j hj
    have hjnb : j < numBatches srcs.length := by omega
    rw [map_snd_getD, (hrowlen j hjnb).2, sliceL_length hjnb]
    omega
  have hkparts : i / 100 < parts.length := by omega
  have hrlen1 : i % 100 < ((parts.map Prod.fst).getD (i / 100) []).length := by
    rw [map_fst_getD, (hrowlen _ hklt).1, sliceL_length hklt]
    omega
  have hrlen2 : i % 100 < ((parts.map Prod.snd).getD (i / 100) []).length := by
    rw [map_snd_getD, (hrowlen _ hklt).2, sliceL_length hklt]
    omega
  have h1 : its.getD i [] = ((parts.map Prod.fst).getD (i / 100) []).getD (i % 100) [] := by
    rw [hits]
    nth_rewrite 1 [← hikr]
    exact flatten_getD_chunk [] (parts.map Prod.fst) (i / 100) (i % 100) huni1
      (by simpa using hkparts) hrlen1
  have h2 : scs.getD i [] = ((parts.map Prod.snd).getD (i / 100) []).getD (i % 100) [] := by
    rw [hscs]
    nth_rewrite 1 [← hikr]
    exact flatten_getD_chunk [] (parts.map Prod.snd) (i / 100) (i % 100) huni2
      (by simpa using hkparts) hrlen2
  refine ⟨(parts.getD (i / 100) ([], [])).1, (parts.getD (i / 100) ([], [])).2, ?_, ?_, ?_⟩
  · have hsu := hpsub (i / 100) hklt
    rw [hsu]
  · rw [h1, map_fst_getD]
  · rw [h2, map_snd_getD]

theorem userMoviePairU_mem {users movies : List Nat} {p : Nat × Nat}
    (hp : p ∈ userMoviePairU users movies) :
    ∃ u ∈ users, ∃ m ∈ movies, p = (toU32 u, toU32 m) := by
  rw [userMoviePairU] at hp
  obtain ⟨l, hl, hpl⟩ := List.mem_flatten.mp hp
  obtain ⟨m, hm, hlm⟩ := List.mem_map.mp hl
  subst hlm
  obtain ⟨u, hu, hpu⟩ := List.mem_map.mp hpl
  exact ⟨u, hu, m, hm, hpu.symm⟩

theorem userMoviePairM_mem {users movies : List Nat} {p : Nat × Nat}
    (hp : p ∈ userMoviePairM users movies) :
    ∃ u ∈ users, ∃ m ∈ movies, p = (toU32 u, toU32 m) := by
  rw [userMoviePairM] at hp
  obtain ⟨l, hl, hpl⟩ := List.mem_flatten.mp hp
  obtain ⟨u, hu, hlu⟩ := List.mem_map.mp hl
  subst hlu
  obtain ⟨m, hm, hpm⟩ := List.mem_map.mp hpl
  exact ⟨u, hu, m, hm, hpm.symm⟩

/-- C2: in every row of the returned matrices (either valid direction),
a sentinel never precedes a filled cell, the item and score matrices are
filled at exactly the same cells, and the filled scores are sorted in
descending order (strictly greater or IEEE-equal as the column index
grows). -/
theorem C2_rows_sorted (f : Nat → Nat → PredScore) (rt : String)
    (users movies : List Nat) (maxsize : Option Nat) (its : MatI) (scs : MatS)
    (hdir : rt = "movie" ∨ rt = "user")
    (h : recommend f rt users movies maxsize = Except.ok (its, scs)) :
    ∀ rp ∈ its.zip scs,
      (∀ c1 c2, c1 < c2 → rp.2.getD c2 none ≠ none → rp.2.getD c1 none ≠ none) ∧
      (∀ c, rp.1.getD c none = none ↔ rp.2.getD c none = none) ∧
      (∀ c1 c2 s1 s2, c1 < c2 → rp.2.getD c1 none = some s1 →
        rp.2.getD c2 none = some s2 → (scoreGT s1 s2 || scoreEQ s1 s2) = true) := by
  have main : ∀ (sub : List Nat → Except String (MatI × MatS)) (srcs : List Nat),
      (∀ (us : List Nat) (bi : MatI) (bs : MatS), sub us = Except.ok (bi, bs) →
        ∃ (keys : List Nat) (rows : List TRow) (msize : Nat),
          (∀ r ∈ rows, r.pred.isNaN = false) ∧
          topKCore keys rows msize = Except.ok (bi, bs)) →
      batchDriver sub srcs = Except.ok (its, scs) →
      ∀ rp ∈ its.zip scs,
        (∀ c1 c2, c1 < c2 → rp.2.getD c2 none ≠ none → rp.2.getD c1 none ≠ none) ∧
        (∀ c, rp.1.getD c none = none ↔ rp.2.getD c none = none) ∧
        (∀ c1 c2 s1 s2, c1 < c2 → rp.2.getD c1 none = some s1 →
          rp.2.getD c2 none = some s2 → (scoreGT s1 s2 || scoreEQ s1 s2) = true) := by
    intro sub srcs hsub hok rp hrp
    obtain ⟨_, _, _, parts, hplen, hpsub, hits, hscs⟩ := batchDriver_spec hok
    have hcore : ∀ p ∈ parts, ∃ (keys : List Nat) (rows : List TRow) (msize : Nat),
        (∀ r ∈ rows, r.pred.isNaN = false) ∧
        topKCore keys rows msize = Except.ok (p.1, p.2) := by
      intro p hp
      obtain ⟨j, hj, hjp⟩ := List.getElem_of_mem hp
      have hjlt : j < numBatches srcs.length := by omega
      have hpd : parts.getD j ([], []) = p := by
        rw [List.getD_eq_getElem parts ([], []) hj, hjp]
      have hsu := hpsub j hjlt
      rw [hpd] at hsu
      exact hsub _ p.1 p.2 (by rw [hsu])
    have hpeq : ∀ p ∈ parts, p.1.length = p.2.length := by
      intro p hp
      obtain ⟨keys, rows, msize, _, hc⟩ := hcore p hp
      obtain ⟨e1, e2, _, _⟩ := topKCore_shape hc
      rw [e1, e2]
    rw [hits, hscs, zip_flatten_parts parts hpeq] at hrp
    obtain ⟨pz, hpz, hrppz⟩ := List.mem_flatten.mp hrp
    obtain ⟨p, hp, hpzp⟩ := List.mem_map.mp hpz
    rw [← hpzp] at hrppz
    obtain ⟨i, hi1, hi2, hrp1, hrp2⟩ := zip_mem_getD hrppz
    obtain ⟨keys, rows, msize, hnn, hc⟩ := hcore p hp
    obtain ⟨hP1, hP2, hP3⟩ := topKCore_row_props i hnn hc
    rw [hrp1, hrp2]
    exact ⟨hP1, hP2, hP3⟩
  rcases hdir with rfl | rfl
  · rw [recommend_movie] at h
    refine main _ users ?_ h
    intro us bi bs hok
    exact ⟨us, dfTableU f us movies, maxsize.getD movies.length,
      dfTableU_nonnan f us movies, recommendForUsers_ok_inv hok⟩
  · rw [recommend_user] at h
    refine main _ movies ?_ h
    intro mv bi bs hok
    exact ⟨mv, dfTableM f users mv, maxsize.getD users.length,
      dfTableM_nonnan f users mv, recommendForMovies_ok_inv hok⟩

/-- C4: with 250 source entities and a valid direction, the driver runs
exactly 3 batches over the consecutive chunks `srcs[0:100]`,
`srcs[100:200]`, `srcs[200:250]`, row-stacks the three sub-matrix pairs
in batch order (sizes 100, 100, 50), and row `i` of the result is row
`i - 100*⌊i/100⌋` of the batch that contains the `i`-th source entity. -/
theorem C4_batching (f : Nat → Nat → PredScore) (rt : String)
    (users movies srcs : List Nat) (maxsize : Option Nat)
    (sub : List Nat → Except String (MatI × MatS)) (its : MatI) (scs : MatS)
    (hdir : (rt = "movie" ∧ srcs = users ∧
        sub = fun us => recommendForUsers f us movies maxsize) ∨
      (rt = "user" ∧ srcs = movies ∧
        sub = fun mv => recommendForMovies f mv users maxsize))
    (h250 : srcs.length = 250)
    (h : recommend f rt users movies maxsize = Except.ok (its, scs)) :
    numBatches srcs.length = 3 ∧
    ∃ p0 p1 p2 : MatI × MatS,
      sub (srcs.take 100) = Except.ok p0 ∧
      sub ((srcs.drop 100).take 100) = Except.ok p1 ∧
      sub ((srcs.drop 200).take 50) = Except.ok p2 ∧
      p0.1.length = 100 ∧ p1.1.length = 100 ∧ p2.1.length = 50 ∧
      its = p0.1 ++ p1.1 ++ p2.1 ∧ scs = p0.2 ++ p1.2 ++ p2.2 ∧
      (∀ i, i < 100 → its.getD i [] = p0.1.getD i []) ∧
      (∀ i, 100 ≤ i → i < 200 → its.getD i [] = p1.1.getD (i - 100) []) ∧
      (∀ i, 200 ≤ i → i < 250 → its.getD i [] = p2.1.getD (i - 200) []) := by
  have hnb : numBatches srcs.length = 3 := by
    rw [numBatches, h250]
  refine ⟨hnb, ?_⟩
  have hs0 : sliceL srcs 0 = srcs.take 100 := by
    rw [sliceL, h250]
    norm_num
  have hs1 : sliceL srcs 1 = (srcs.drop 100).take 100 := by
    rw [sliceL, h250]
    norm_num
  have hs2 : sliceL srcs 2 = (srcs.drop 200).take 50 := by
    rw [sliceL, h250]
    norm_num
  have hshape : ∀ us bi bs, sub us = Except.ok (bi, bs) → bi.length = us.length := by
    rcases hdir with ⟨_, _, rfl⟩ | ⟨_, _, rfl⟩
    · intro us bi bs hok
      exact (topKCore_shape (recommendForUsers_ok_inv hok)).1
    · intro us bi bs hok
      exact (topKCore_shape (recommendForMovies_ok_inv hok)).1
  have hdrv : batchDriver sub srcs = Except.ok (its, scs) := by
    rcases hdir with ⟨rfl, rfl, rfl⟩ | ⟨rfl, rfl, rfl⟩
    · rw [recommend_movie] at h
      exact h
    · rw [recommend_user] at h
      exact h
  obtain ⟨_, _, _, parts, hplen, hpsub, hits, hscs⟩ := batchDriver_spec hdrv
  rw [hnb] at hplen
  cases parts with
  | nil => simp at hplen
  | cons p0 parts1 =>
    cases parts1 with
    | nil => simp at hplen
    | cons p1 parts2 =>
      cases parts2 with
      | nil => simp at hplen
      | cons p2 parts3 =>
        cases parts3 with
        | cons p3 parts4 => simp at hplen
        | nil =>
          have hsub0 := hpsub 0 (by rw [hnb]; omega)
          have hsub1 := hpsub 1 (by rw [hnb]; omega)
          have hsub2 := hpsub 2 (by rw [hnb]; omega)
          rw [hs0] at hsub0
          rw [hs1] at hsub1
          rw [hs2] at hsub2
          have hl0 : p0.1.length = 100 := by
            have hq := hshape _ _ _ (show sub (srcs.take 100) = Except.ok (p0.1, p0.2) by
              rw [hsub0]; exact rfl)
            rw [hq, List.length_take, h250]
            omega
          have hl1 : p1.1.length = 100 := by
            have hq := hshape _ _ _ (show sub ((srcs.drop 100).take 100)
                = Except.ok (p1.1, p1.2) by rw [hsub1]; exact rfl)
            rw [hq, List.length_take, List.length_drop, h250]
            omega
          have hl2 : p2.1.length = 50 := by
            have hq := hshape _ _ _ (show sub ((srcs.drop 200).take 50)
                = Except.ok (p2.1, p2.2) by rw [hsub2]; exact rfl)
            rw [hq, List.length_take, List.length_drop, h250]
            omega
          have hlen01 : (p0.1 ++ p1.1).length = 200 := by
            rw [List.length_append, hl0, hl1]
          have hitseq : its = p0.1 ++ p1.1 ++ p2.1 := by
            rw [hits]
            simp
          have hscseq : scs = p0.2 ++ p1.2 ++ p2.2 := by
            rw [hscs]
            simp
          refine ⟨p0, p1, p2, hsub0, hsub1, hsub2, hl0, hl1, hl2, hitseq, hscseq,
            ?_, ?_, ?_⟩
          · intro i hi
            rw [hitseq, List.getD_append _ _ _ _ (by omega),
              List.getD_append _ _ _ _ (by omega)]
          · intro i hi1 hi2
            rw [hitseq, List.getD_append _ _ _ _ (by omega),
              List.getD_append_right _ _ _ _ (by omega), hl0]
          · intro i hi1 hi2
            rw [hitseq, List.getD_append_right _ _ _ _ (by omega), hlen01]

/-- C5: pairs with a missing (NaN) score are silently dropped before
ranking — the tables of both directions contain no NaN row — and a
source entity all of whose pairs score NaN gets an output row (in both
matrices) that is entirely the sentinel. -/
theorem C5_missing_scores (f : Nat → Nat → PredScore) (rt : String)
    (users movies srcs tgts : List Nat) (maxsize : Option Nat) (i : Nat)
    (its : MatI) (scs : MatS)
    (hdir : (rt = "movie" ∧ srcs = users ∧ tgts = movies ∧
        (∀ t ∈ movies, (f (toU32 (srcs.getD i 0)) (toU32 t)).isNaN = true)) ∨
      (rt = "user" ∧ srcs = movies ∧ tgts = users ∧
        (∀ t ∈ users, (f (toU32 t) (toU32 (srcs.getD i 0))).isNaN = true)))
    (h : recommend f rt users movies maxsize = Except.ok (its, scs))
    (hi : i < srcs.length) :
    (∀ r ∈ dfTableU f users movies, r.pred.isNaN = false) ∧
    (∀ r ∈ dfTableM f users movies, r.pred.isNaN = false) ∧
    (∀ c, (its.getD i []).getD c none = none ∧ (scs.getD i []).getD c none = none) := by
  refine ⟨dfTableU_nonnan f users movies, dfTableM_nonnan f users movies, ?_⟩
  rcases hdir with ⟨rfl, rfl, rfl, hmiss⟩ | ⟨rfl, rfl, rfl, hmiss⟩
  · rw [recommend_movie] at h
    have hshape : ∀ us bi bs,
        (fun us => recommendForUsers f us tgts maxsize) us = Except.ok (bi, bs) →
        bi.length = us.length ∧ bs.length = us.length := by
      intro us bi bs hok
      obtain ⟨e1, e2, _, _⟩ := topKCore_shape (recommendForUsers_ok_inv hok)
      exact ⟨e1, e2⟩
    obtain ⟨bi, bs, hbok, hrow1, hrow2⟩ := batchDriver_row h hshape hi
    have hcore : topKCore (sliceL srcs (i / 100))
        (dfTableU f (sliceL srcs (i / 100)) tgts) (maxsize.getD tgts.length)
        = Except.ok (bi, bs) := recommendForUsers_ok_inv hbok
    intro c
    rw [hrow1, hrow2]
    rcases topKCore_cell_src (i := i % 100) (c := c) hcore with ⟨h1, h2⟩ |
      ⟨j, hj, hle, ht, hv1, hv2⟩
    · exact ⟨h1, h2⟩
    · exfalso
      obtain ⟨hidx, _⟩ := ht
      obtain ⟨hilt, hkey, _⟩ := lastIdx_some_spec hidx
      have hslget : (sliceL srcs (i / 100)).getD (i % 100) 0 = srcs.getD i 0 := by
        have hikr : (i / 100) * 100 + i % 100 = i := by omega
        rw [sliceL_getD hilt, hikr]
      obtain ⟨u, hu, m, hm, hrow⟩ := dfTableU_mem
        (@rowAt_mem (dfTableU f (sliceL srcs (i / 100)) tgts) j hj)
      have hpred : (f (toU32 u) (toU32 m)).isNaN = false := by
        have hp := dfTableU_nonnan f (sliceL srcs (i / 100)) tgts _
          (@rowAt_mem (dfTableU f (sliceL srcs (i / 100)) tgts) j hj)
        rw [hrow] at hp
        exact hp
      rw [hrow] at hkey
      have hkey2 : srcs.getD i 0 = toU32 u := by
        rw [← hslget]
        exact hkey
      have hmm := hmiss m hm
      rw [hkey2, toU32_idem] at hmm
      rw [hmm] at hpred
      cases hpred
  · rw [recommend_user] at h
    have hshape : ∀ mv bi bs,
        (fun mv => recommendForMovies f mv tgts maxsize) mv = Except.ok (bi, bs) →
        bi.length = mv.length ∧ bs.length = mv.length := by
      intro mv bi bs hok
      obtain ⟨e1, e2, _, _⟩ := topKCore_shape (recommendForMovies_ok_inv hok)
      exact ⟨e1, e2⟩
    obtain ⟨bi, bs, hbok, hrow1, hrow2⟩ := batchDriver_row h hshape hi
    have hcore : topKCore (sliceL srcs (i / 100))
        (dfTableM f tgts (sliceL srcs (i / 100))) (maxsize.getD tgts.length)
        = Except.ok (bi, bs) := recommendForMovies_ok_inv hbok
    intro c
    rw [hrow1, hrow2]
    rcases topKCore_cell_src (i := i % 100) (c := c) hcore with ⟨h1, h2⟩ |
      ⟨j, hj, hle, ht, hv1, hv2⟩
    · exact ⟨h1, h2⟩
    · exfalso
      obtain ⟨hidx, _⟩ := ht
      obtain ⟨hilt, hkey, _⟩ := lastIdx_some_spec hidx
      have hslget : (sliceL srcs (i / 100)).getD (i % 100) 0 = srcs.getD i 0 := by
        have hikr : (i / 100) * 100 + i % 100 = i := by omega
        rw [sliceL_getD hilt, hikr]
      obtain ⟨u, hu, m, hm, hrow⟩ := dfTableM_mem
        (@rowAt_mem (dfTableM f tgts (sliceL srcs (i / 100))) j hj)
      have hpred : (f (toU32 u) (toU32 m)).isNaN = false := by
        have hp := dfTableM_nonnan f tgts (sliceL srcs (i / 100)) _
          (@rowAt_mem (dfTableM f tgts (sliceL srcs (i / 100))) j hj)
        rw [hrow] at hp
        exact hp
      rw [hrow] at hkey
      have hkey2 : srcs.getD i 0 = toU32 m := by
        rw [← hslget]
        exact hkey
      have hmm := hmiss u hu
      rw [hkey2, toU32_idem] at hmm
      rw [hmm] at hpred
      cases hpred

/-- C9: in a single batch, results only ever appear in the row of the
*last* occurrence of a source id (the index dict is built left to right,
later occurrences overwriting earlier ones); the rows of all earlier
occurrences of a duplicated id stay entirely sentinel; and every kept
ranked row is written at the index the dict assigns to its key. -/
theorem C9_duplicate_sources (f : Nat → Nat → PredScore) (users movies : List Nat)
    (maxsize : Option Nat) (its : MatI) (scs : MatS)
    (h : recommendForUsers f users movies maxsize = Except.ok (its, scs)) :
    (∀ k c, (its.getD k []).getD c none ≠ none →
      lastIdx users (users.getD k 0) = some k) ∧
    (∀ k j, k < j → j < users.length → users.getD k 0 = users.getD j 0 →
      ∀ c, (its.getD k []).getD c none = none ∧ (scs.getD k []).getD c none = none) ∧
    (∀ j, j < (dfTableU f users movies).length →
      rankAt (dfTableU f users movies) j ≤ maxsize.getD movies.length →
      ∀ k, lastIdx users (rowAt (dfTableU f users movies) j).key = some k →
        (its.getD k []).getD (rankAt (dfTableU f users movies) j - 1) none
          = some (rowAt (dfTableU f users movies) j).item) := by
  have hcore : topKCore users (dfTableU f users movies) (maxsize.getD movies.length)
      = Except.ok (its, scs) := recommendForUsers_ok_inv h
  have part1 : ∀ k c, (its.getD k []).getD c none ≠ none →
      lastIdx users (users.getD k 0) = some k := by
    intro k c hne
    rcases topKCore_cell_src (i := k) (c := c) hcore with ⟨h1, _⟩ |
      ⟨j, hj, hle, ht, _, _⟩
    · exact absurd h1 hne
    · obtain ⟨hidx, _⟩ := ht
      have hspec := lastIdx_some_spec hidx
      rw [hspec.2.1]
      exact hidx
  refine ⟨part1, ?_, ?_⟩
  · intro k j hkj hjlen hdup c
    constructor
    · by_contra hne
      have hlk := part1 k c hne
      have hspec := lastIdx_some_spec hlk
      exact (hspec.2.2 j hkj hjlen) hdup.symm
    · by_contra hne
      rcases topKCore_cell_src (i := k) (c := c) hcore with ⟨_, h2⟩ |
        ⟨j', hj', hle, ht, hv1, _⟩
      · exact hne h2
      · have hnei : (its.getD k []).getD c none ≠ none := by
          rw [hv1]
          exact Option.some_ne_none _
        have hlk := part1 k c hnei
        have hspec := lastIdx_some_spec hlk
        exact (hspec.2.2 j hkj hjlen) hdup.symm
  · intro j hj hle k hidx
    exact (topKCore_cell_of_rank (dfTableU_nonnan f users movies) hcore hj hle hidx).1

/-- C10: ids are reduced modulo 2^32 when the pair table is built: every
pair handed to the scoring function consists of the original ids mod
2^32, every table row scores exactly that reduced pair, and every id
written into the item matrix is a target id reduced modulo 2^32. -/
theorem C10_uint32 (f : Nat → Nat → PredScore) (rt : String)
    (users movies srcs tgts : List Nat) (maxsize : Option Nat) (its : MatI) (scs : MatS)
    (hdir : (rt = "movie" ∧ srcs = users ∧ tgts = movies) ∨
      (rt = "user" ∧ srcs = movies ∧ tgts = users))
    (h : recommend f rt users movies maxsize = Except.ok (its, scs)) :
    (∀ p ∈ userMoviePairU users movies,
      ∃ u ∈ users, ∃ m ∈ movies, p = (u % 4294967296, m % 4294967296)) ∧
    (∀ p ∈ userMoviePairM users movies,
      ∃ u ∈ users, ∃ m ∈ movies, p = (u % 4294967296, m % 4294967296)) ∧
    (∀ r ∈ dfTableU f users movies, ∃ u ∈ users, ∃ m ∈ movies,
      r = TRow.mk (u % 4294967296) (m % 4294967296)
        (f (u % 4294967296) (m % 4294967296))) ∧
    (∀ r ∈ dfTableM f users movies, ∃ u ∈ users, ∃ m ∈ movies,
      r = TRow.mk (m % 4294967296) (u % 4294967296)
        (f (u % 4294967296) (m % 4294967296))) ∧
    (∀ i c v, (its.getD i []).getD c none = some v →
      ∃ t ∈ tgts, v = t % 4294967296) := by
  refine ⟨fun p hp => userMoviePairU_mem hp, fun p hp => userMoviePairM_mem hp,
    fun r hr => dfTableU_mem hr, fun r hr => dfTableM_mem hr, ?_⟩
  intro i c v hv
  rcases hdir with ⟨rfl, rfl, rfl⟩ | ⟨rfl, rfl, rfl⟩
  · rw [recommend_movie] at h
    have hshape : ∀ us bi bs,
        (fun us => recommendForUsers f us tgts maxsize) us = Except.ok (bi, bs) →
        bi.length = us.length ∧ bs.length = us.length := by
      intro us bi bs hok
      obtain ⟨e1, e2, _, _⟩ := topKCore_shape (recommendForUsers_ok_inv hok)
      exact ⟨e1, e2⟩
    have hlen : its.length = srcs.length := (batchDriver_spec h).2.1
    have hi : i < srcs.length := by
      by_contra hno
      have hrowe : its.getD i [] = [] := List.getD_eq_default _ _ (by omega)
      rw [hrowe] at hv
      exact Option.noConfusion (show (none : Option Nat) = some v from hv)
    obtain ⟨bi, bs, hbok, hrow1, hrow2⟩ := batchDriver_row h hshape hi
    have hcore : topKCore (sliceL srcs (i / 100))
        (dfTableU f (sliceL srcs (i / 100)) tgts) (maxsize.getD tgts.length)
        = Except.ok (bi, bs) := recommendForUsers_ok_inv hbok
    rw [hrow1] at hv
    rcases topKCore_cell_src (i := i % 100) (c := c) hcore with ⟨h1, _⟩ |
      ⟨j, hj, hle, ht, hv1, _⟩
    · rw [h1] at hv
      exact Option.noConfusion hv
    · rw [hv1] at hv
      have hveq := Option.some.inj hv
      obtain ⟨u, hu, m, hm, hrow⟩ := dfTableU_mem
        (@rowAt_mem (dfTableU f (sliceL srcs (i / 100)) tgts) j hj)
      refine ⟨m, hm, ?_⟩
      rw [← hveq, hrow]
      rfl
  · rw [recommend_user] at h
    have hshape : ∀ mv bi bs,
        (fun mv => recommendForMovies f mv tgts maxsize) mv = Except.ok (bi, bs) →
        bi.length = mv.length ∧ bs.length = mv.length := by
      intro mv bi bs hok
      obtain ⟨e1, e2, _, _⟩ := topKCore_shape (recommendForMovies_ok_inv hok)
      exact ⟨e1, e2⟩
    have hlen : its.length = srcs.length := (batchDriver_spec h).2.1
    have hi : i < srcs.length := by
      by_contra hno
      have hrowe : its.getD i [] = [] := List.getD_eq_default _ _ (by omega)
      rw [hrowe] at hv
      exact Option.noConfusion (show (none : Option Nat) = some v from hv)
    obtain ⟨bi, bs, hbok, hrow1, hrow2⟩ := batchDriver_row h hshape hi
    have hcore : topKCore (sliceL srcs (i / 100))
        (dfTableM f tgts (sliceL srcs (i / 100))) (maxsize.getD tgts.length)
        = Except.ok (bi, bs) := recommendForMovies_ok_inv hbok
    rw [hrow1] at hv
    rcases topKCore_cell_src (i := i % 100) (c := c) hcore with ⟨h1, _⟩ |
      ⟨j, hj, hle, ht, hv1, _⟩
    · rw [h1] at hv
      exact Option.noConfusion hv
    · rw [hv1] at hv
      have hveq := Option.some.inj hv
      obtain ⟨u, hu, m, hm, hrow⟩ := dfTableM_mem
        (@rowAt_mem (dfTableM f tgts (sliceL srcs (i / 100))) j hj)
      refine ⟨u, hu, ?_⟩
      rw [← hveq, hrow]
      rfl

/-! ### Concrete instances -/

/-- The scoring table of the spec §8 scenario: sources 1 and 2, targets
10, 20, 30, one missing score. -/
def fScenario : Nat → Nat → PredScore := fun u m =>
  if u = 1 then
    if m = 10 then PredScore.fin 9
    else if m = 20 then PredScore.fin 5
    else PredScore.nan
  else
    if m = 10 then PredScore.fin 1
    else if m = 20 then PredScore.fin 1
    else PredScore.fin 8

theorem C1_witness :
    ∃ its scs, recommend (fun _ _ => PredScore.fin 1) "movie" [1] [2] none
        = Except.ok (its, scs) ∧
      its.length = ([1] : List Nat).length ∧ scs.length = ([1] : List Nat).length ∧
      (∀ r ∈ its, r.length = (none : Option Nat).getD (([2] : List Nat).length)) ∧
      (∀ r ∈ scs, r.length = (none : Option Nat).getD (([2] : List Nat).length)) :=
  C1_shape (fun _ _ => PredScore.fin 1) "movie" [1] [2] [1] [2] none
    (Or.inl ⟨rfl, rfl, rfl⟩) (by decide) (by decide) (by decide)

theorem C2_witness :
    (scoreGT (PredScore.fin 8) (PredScore.fin 1)
      || scoreEQ (PredScore.fin 8) (PredScore.fin 1)) = true :=
  ((C2_rows_sorted fScenario "movie" [1, 2] [10, 20, 30] (some 2)
      [[some 10, some 20], [some 30, some 10]]
      [[some (PredScore.fin 9), some (PredScore.fin 5)],
        [some (PredScore.fin 8), some (PredScore.fin 1)]]
      (Or.inl rfl) rfl)
    ([some 30, some 10], [some (PredScore.fin 8), some (PredScore.fin 1)])
    (by decide)).2.2 0 1 (PredScore.fin 8) (PredScore.fin 1)
    (by decide) (by decide) (by decide)

theorem C3_witness :
    rankAt (dfTableU (fun _ _ => PredScore.fin 1) [7] [10, 20]) 0
      < rankAt (dfTableU (fun _ _ => PredScore.fin 1) [7] [10, 20]) 1 :=
  C3_tie_break (fun _ _ => PredScore.fin 1) [7] [10, 20]
    (dfTableU (fun _ _ => PredScore.fin 1) [7] [10, 20]) 0 1 (Or.inl rfl)
    (by decide) (by decide) (by decide) (by decide)

set_option maxRecDepth 8000 in
theorem C4_witness : numBatches (List.range 250).length = 3 :=
  (C4_batching (fun _ _ => PredScore.nan) "movie" (List.range 250) [5]
      (List.range 250) (some 1)
      (fun us => recommendForUsers (fun _ _ => PredScore.nan) us [5] (some 1))
      (List.replicate 250 [none]) (List.replicate 250 [none])
      (Or.inl ⟨rfl, rfl, rfl⟩) (by simp) rfl).1

theorem C5_witness :
    (([[none]] : MatI).getD 0 []).getD 0 none = none ∧
      (([[none]] : MatS).getD 0 []).getD 0 none = none :=
  (C5_missing_scores (fun _ _ => PredScore.nan) "movie" [1] [10] [1] [10] none 0
      [[none]] [[none]]
      (Or.inl ⟨rfl, rfl, rfl, by decide⟩) rfl (by decide)).2.2 0

theorem C6_witness :
    TRow.mk 1 2 (PredScore.fin 3) ∈ dfTableU (fun _ _ => PredScore.fin 3) [1] [2] :=
  ((C6_nan_dropped (fun _ _ => PredScore.fin 3) [1] [2] (1, 2)).1 (by decide)).mpr
    (by decide)

theorem C7_witness :
    recommend (fun _ _ => PredScore.nan) "banana" [1] [2] none
      = Except.error "wrong recommended_type" :=
  C7_invalid_direction (fun _ _ => PredScore.nan) "banana" [1] [2] none
    (by decide) (by decide)

theorem C9_witness :
    lastIdx [5, 5] (([5, 5] : List Nat).getD 1 0) = some 1 :=
  (C9_duplicate_sources (fun _ _ => PredScore.fin 1) [5, 5] [10] none
      [[none], [some 10]] [[none], [some (PredScore.fin 1)]] rfl).1 1 0
    (by decide)

theorem C10_witness :
    ∃ t ∈ ([4294967306] : List Nat), 10 = t % 4294967296 :=
  (C10_uint32 (fun _ _ => PredScore.fin 1) "movie" [1] [4294967306]
      [1] [4294967306] none [[some 10]] [[some (PredScore.fin 1)]]
      (Or.inl ⟨rfl, rfl, rfl⟩) rfl).2.2.2.2 0 0 10 (by decide)

end Touchstore
